import Mathlib

/-!
gosnake: the grid model and the touch handler of `main.go`.

A shallow embedding of the game logic of `main.go` (`snakeMove`, `snakeEat`,
`checkCanEat`, `initSnake`, `onTouch`, `Node.SetLocation`) and theorems about it.

Modelling conventions.

* Go `int` is `Int`.  The only arithmetic of the game logic is the head coordinate plus or
  minus one; `moveOffset64_eq` shows that on a head inside a grid whose dimensions are below
  the largest `int` the 64-bit result is the `Int` result.
* A tick and a touch handler run one at a time; the unsynchronised interleaving of the ticker
  goroutine with the touch callback is not modelled.
* The package-level variables `rowCount`, `colCount`, `head`, `food`, `direction` are the
  fields of `State`; functions that mutate them return the new state.
* `head` is a pointer to a singly linked list of `SnakeNode`s, each holding a pointer `Value`
  to a `Node`.  The list is `List (Option Node)`: the empty list is the `nil` pointer and an
  element `none` is a `SnakeNode` whose `Value` is `nil`.  `food` is `Option Node`.
  Dereferencing `nil` is the result `Except.error Panic.nilDereference`.
* `rand.Intn n` takes the raw value `r` delivered by the pseudo-random source as an argument:
  it panics when `n ≤ 0` and otherwise returns `r % n`, so that over all `r` its results are
  exactly the half-open interval `[0, n)` documented for `math/rand`.
* `geom.Pt` is a `float32`.  `Pt` models IEEE 754 binary32: NaN, the two infinities and the
  finite values as a sign and a rational magnitude; `*` and `/` round the exact result to the
  nearest float32 (ties to even, gradual underflow, overflow to infinity) and `<` is false on
  NaN.  The magnitude of an argument ranges over all rationals, which include every float32
  value, so what is proved for all `Pt` holds for every touch a device can deliver.
* The sprite engine calls (`eng.Register`, `eng.SetTransform`, `Node.Update`, ...) only draw;
  they do not touch the variables above and are left out.  `Node.SpriteNode` is left out too.
-/

namespace Gosnake

/-! ## Constants (the `iota` block) -/

/-- Texture tag `FOOD = iota`, the first constant of the block. -/
def FOOD : Int := 0
/-- Texture tag `BODY`. -/
def BODY : Int := 1
/-- Texture tag `HEAD`. -/
def HEAD : Int := 2
/-- Direction `UP`; `iota` keeps counting through the whole `const` block. -/
def UP : Int := 3
/-- Direction `DOWN`. -/
def DOWN : Int := 4
/-- Direction `LEFT`. -/
def LEFT : Int := 5
/-- Direction `RIGHT`. -/
def RIGHT : Int := 6

/-! ## Data model -/

/-- Runtime failures of the Go program that the model tracks. -/
inductive Panic where
  | nilDereference
  | intnArgument
deriving DecidableEq

/-- The struct `Node` without its sprite: `NodeType`, `X`, `Y`. -/
structure Node where
  NodeType : Int
  X : Int
  Y : Int
deriving DecidableEq

/-- The package-level variables of the game. -/
structure State where
  rowCount : Int
  colCount : Int
  head : List (Option Node)
  food : Option Node
  direction : Int
deriving DecidableEq

/-- Method `(*Node).SetLocation`: assigns `X` and `Y` (the redraw is not modelled). -/
def Node.SetLocation (node : Node) (x y : Int) : Node :=
  { node with X := x, Y := y }

/-- Function `newNode(nodeType)`: a node of the given type at `(0, 0)`. -/
def newNode (nodeType : Int) : Node :=
  { NodeType := nodeType, X := 0, Y := 0 }

/-- Function `newSnakeNode(nodeType)`: a list cell whose `Value` is a fresh node (its `Next`
is `nil`; the caller links it). -/
def newSnakeNode (nodeType : Int) : Option Node :=
  some (newNode nodeType)

/-- Library call `rand.Intn(n)` on the raw draw `r`: panics for `n ≤ 0`, else lies in `[0, n)`. -/
def Intn (n : Int) (r : Nat) : Except Panic Int :=
  if n ≤ 0 then Except.error Panic.intnArgument else Except.ok ((r : Int) % n)

/-! ## `snakeMove` -/

/-- The `switch direction` of `snakeMove`: the unit offset applied to `(x, y)`.  A value of
`direction` that is none of the four constants matches no case and leaves `(x, y)` alone. -/
def moveOffset (direction x y : Int) : Int × Int :=
  if direction = LEFT then (x - 1, y)
  else if direction = UP then (x, y - 1)
  else if direction = RIGHT then (x + 1, y)
  else if direction = DOWN then (x, y + 1)
  else (x, y)

/-- The two consecutive `if`s that `snakeMove` runs on one coordinate:
`if v < 0 { v = bound }` and then `if v > bound { v = 0 }`. -/
def wrapCoord (v bound : Int) : Int :=
  let v1 := if v < 0 then bound else v
  if v1 > bound then 0 else v1

/-- Lines 103-128 of `snakeMove`: the position the head is about to take. -/
def candidate (colCount rowCount direction preX preY : Int) : Int × Int :=
  let p := moveOffset direction preX preY
  (wrapCoord p.1 colCount, wrapCoord p.2 rowCount)

/-- Function `checkCanEat(x, y)` once `food` has been dereferenced. -/
def checkCanEat (food : Node) (x y : Int) : Bool :=
  x == food.X && y == food.Y

/-- The `for pNode != nil && pNode.Value != nil` loop of `snakeMove`: each visited node takes
`(preX, preY)` and hands its own old position on; the loop stops at the end of the list or at
the first node without a `Value`. -/
def shiftBody : List (Option Node) → Int → Int → List (Option Node)
  | [], _, _ => []
  | none :: rest, _, _ => none :: rest
  | some v :: rest, preX, preY => some (v.SetLocation preX preY) :: shiftBody rest v.X v.Y

/-- Function `snakeEat(x, y)`.  `r1` and `r2` are the raw draws behind the two `rand.Intn`
calls, which Go evaluates left to right before the call of `food.SetLocation`. -/
def snakeEat (s : State) (x y : Int) (r1 r2 : Nat) : Except Panic State :=
  match s.head with
  | [] => Except.error Panic.nilDereference
  | none :: _ => Except.error Panic.nilDereference
  | some hv :: next =>
    let inserted := (newSnakeNode BODY).map (fun v => v.SetLocation hv.X hv.Y)
    let chain := some (hv.SetLocation x y) :: inserted :: next
    match Intn s.colCount r1 with
    | Except.error e => Except.error e
    | Except.ok fx =>
      match Intn s.rowCount r2 with
      | Except.error e => Except.error e
      | Except.ok fy =>
        match s.food with
        | none => Except.error Panic.nilDereference
        | some f => Except.ok { s with head := chain, food := some (f.SetLocation fx fy) }

/-- Function `snakeMove()`, the body of one tick. -/
def snakeMove (s : State) (r1 r2 : Nat) : Except Panic State :=
  match s.head with
  | [] => Except.error Panic.nilDereference
  | none :: _ => Except.error Panic.nilDereference
  | some hv :: next =>
    let preX := hv.X
    let preY := hv.Y
    let c := candidate s.colCount s.rowCount s.direction preX preY
    match s.food with
    | none => Except.error Panic.nilDereference
    | some f =>
      if checkCanEat f c.1 c.2 then snakeEat s c.1 c.2 r1 r2
      else Except.ok { s with head := some (hv.SetLocation c.1 c.2) :: shiftBody next preX preY }

/-- Function `tick()`. -/
def tick (s : State) (r1 r2 : Nat) : Except Panic State :=
  snakeMove s r1 r2

/-! ## `initSnake` -/

/-- Function `initSnake()`.  The two grid dimensions, which the source derives from the screen
size by `float32` division, are the arguments `cols` and `rows`; `r1`, `r2` are the raw draws
of the two `rand.Intn` calls.  Integer division in Go truncates. -/
def initSnake (cols rows : Int) (r1 r2 : Nat) : Except Panic State :=
  match Intn cols r1 with
  | Except.error e => Except.error e
  | Except.ok fx =>
    match Intn rows r2 with
    | Except.error e => Except.error e
    | Except.ok fy =>
      Except.ok
        { rowCount := rows
          colCount := cols
          head := [(newSnakeNode HEAD).map (fun v => v.SetLocation (Int.tdiv cols 2) (Int.tdiv rows 2))]
          food := some ((newNode FOOD).SetLocation fx fy)
          direction := LEFT }

/-! ## `geom.Pt`: a `float32` -/

/-- The type `geom.Pt`, declared `type Pt float32`: the values of an IEEE 754 binary32 number.
`nan` is any NaN, `inf neg` is the infinity of sign `neg`, and `fin neg mag` is the finite
value of sign `neg` and magnitude `|mag|` (so `fin true 0` is the negative zero).  Every
float32 value is one of these; the results of `*` and `/` below are float32 values. -/
inductive Pt where
  | nan
  | inf (neg : Bool)
  | fin (neg : Bool) (mag : ℚ)
deriving DecidableEq

/-- Round to the nearest integer, a tie going to the even neighbour. -/
def roundHalfEven (r : ℚ) : ℤ :=
  if r - ⌊r⌋ < 1 / 2 then ⌊r⌋
  else if 1 / 2 < r - ⌊r⌋ then ⌊r⌋ + 1
  else if ⌊r⌋ % 2 = 0 then ⌊r⌋ else ⌊r⌋ + 1

/-- Exponent of the unit in the last place of a float32 of magnitude `q`: 23 below the binary
exponent of `q`, which is not taken below `-126` (the subnormal numbers share the unit
`2 ^ (-149)`). -/
def ulpExponent (q : ℚ) : ℤ :=
  max (Int.log 2 q) (-126) - 23

/-- The magnitude `q ≥ 0` rounded to 24 significant bits, to nearest with ties to even, the
exponent not yet bounded above. -/
def roundMag (q : ℚ) : ℚ :=
  (roundHalfEven (q / 2 ^ ulpExponent q) : ℚ) * 2 ^ ulpExponent q

/-- The float32 nearest to the exact result of sign `neg` and magnitude `q`: a rounded
magnitude of `2 ^ 128` or more overflows to the infinity. -/
def Pt.round (neg : Bool) (q : ℚ) : Pt :=
  if 340282366920938463463374607431768211456 ≤ roundMag q then Pt.inf neg
  else Pt.fin neg (roundMag q)

/-- The signed rational value of a finite float32. -/
def Pt.signed (neg : Bool) (mag : ℚ) : ℚ :=
  if neg then -|mag| else |mag|

/-- The float32 product: NaN propagates, zero times infinity is NaN, the sign is the
exclusive or of the signs, and a finite exact product is rounded. -/
def Pt.mul : Pt → Pt → Pt
  | Pt.nan, _ => Pt.nan
  | _, Pt.nan => Pt.nan
  | Pt.inf a, Pt.inf b => Pt.inf (Bool.xor a b)
  | Pt.inf a, Pt.fin b q => if |q| = 0 then Pt.nan else Pt.inf (Bool.xor a b)
  | Pt.fin a p, Pt.inf b => if |p| = 0 then Pt.nan else Pt.inf (Bool.xor a b)
  | Pt.fin a p, Pt.fin b q => Pt.round (Bool.xor a b) (|p| * |q|)

/-- The float32 quotient: NaN propagates, infinity by infinity and zero by zero are NaN, a
non-zero value by zero is an infinity, a finite value by an infinity is a zero, the sign is
the exclusive or of the signs, and a finite exact quotient is rounded. -/
def Pt.div : Pt → Pt → Pt
  | Pt.nan, _ => Pt.nan
  | _, Pt.nan => Pt.nan
  | Pt.inf _, Pt.inf _ => Pt.nan
  | Pt.inf a, Pt.fin b _ => Pt.inf (Bool.xor a b)
  | Pt.fin a _, Pt.inf b => Pt.fin (Bool.xor a b) 0
  | Pt.fin a p, Pt.fin b q =>
    if |q| = 0 then (if |p| = 0 then Pt.nan else Pt.inf (Bool.xor a b))
    else Pt.round (Bool.xor a b) (|p| / |q|)

/-- The float32 comparison `<`: false when an operand is NaN, otherwise the order of the
extended reals (the two zeros are equal). -/
def Pt.blt : Pt → Pt → Bool
  | Pt.nan, _ => false
  | _, Pt.nan => false
  | Pt.inf a, Pt.inf b => a && !b
  | Pt.inf a, Pt.fin _ _ => a
  | Pt.fin _ _, Pt.inf b => !b
  | Pt.fin a p, Pt.fin b q => decide (Pt.signed a p < Pt.signed b q)

/-- The float32 comparison `<=`: false when an operand is NaN. -/
def Pt.ble : Pt → Pt → Bool
  | Pt.nan, _ => false
  | _, Pt.nan => false
  | Pt.inf a, Pt.inf b => a || !b
  | Pt.inf a, Pt.fin _ _ => a
  | Pt.fin _ _, Pt.inf b => !b
  | Pt.fin a p, Pt.fin b q => decide (Pt.signed a p ≤ Pt.signed b q)

instance : LT Pt := ⟨fun a b => Pt.blt a b = true⟩

instance : LE Pt := ⟨fun a b => Pt.ble a b = true⟩

instance (a b : Pt) : Decidable (a < b) :=
  inferInstanceAs (Decidable (Pt.blt a b = true))

instance (a b : Pt) : Decidable (a ≤ b) :=
  inferInstanceAs (Decidable (Pt.ble a b = true))

instance : Mul Pt := ⟨Pt.mul⟩

instance : Div Pt := ⟨Pt.div⟩

/-- A natural-number constant as a `Pt`.  The constants of `onTouch` (`2` and `3`) and the
coordinates used in the examples are below `2 ^ 24` and so are float32 values exactly. -/
instance (n : Nat) : OfNat Pt n := ⟨Pt.fin false n⟩

/-! ## `onTouch` -/

/-- Region test of the first `case` of `onTouch` (the part before `direction != RIGHT`). -/
def inLeft (x y width height : Pt) : Prop :=
  x < width / 3 ∧ y > height / 3 ∧ y < height * 2 / 3

/-- Region test of the second `case` of `onTouch`. -/
def inUp (x y width height : Pt) : Prop :=
  y < height / 3 ∧ x > width / 3 ∧ x < width * 2 / 3

/-- Region test of the third `case` of `onTouch`. -/
def inRight (x y width height : Pt) : Prop :=
  x > width * 2 / 3 ∧ y > height / 3 ∧ y < height * 2 / 3

/-- Region test of the fourth `case` of `onTouch`. -/
def inDown (x y width height : Pt) : Prop :=
  y > height * 2 / 3 ∧ x > width / 3 ∧ x < width * 2 / 3

instance (x y width height : Pt) : Decidable (inLeft x y width height) :=
  instDecidableAnd

instance (x y width height : Pt) : Decidable (inUp x y width height) :=
  instDecidableAnd

instance (x y width height : Pt) : Decidable (inRight x y width height) :=
  instDecidableAnd

instance (x y width height : Pt) : Decidable (inDown x y width height) :=
  instDecidableAnd

/-- Function `onTouch(t)` with `x = t.Loc.X`, `y = t.Loc.Y`, `width = geom.Width` and
`height = geom.Height`: an expression-less `switch` runs the first `case` that holds. -/
def onTouch (x y width height : Pt) (s : State) : State :=
  if inLeft x y width height ∧ s.direction ≠ RIGHT then { s with direction := LEFT }
  else if inUp x y width height ∧ s.direction ≠ DOWN then { s with direction := UP }
  else if inRight x y width height ∧ s.direction ≠ LEFT then { s with direction := RIGHT }
  else if inDown x y width height ∧ s.direction ≠ UP then { s with direction := DOWN }
  else s

/-- The position `(X, Y)` of a node. -/
def Node.pos (n : Node) : Int × Int :=
  (n.X, n.Y)

/-! ## States of a running game -/

/-- A heading is one of the four direction constants. -/
def IsDirection (d : Int) : Prop :=
  d = UP ∨ d = DOWN ∨ d = LEFT ∨ d = RIGHT

/-- A node lies on the grid with the inclusive bounds: `0 ≤ X ≤ colCount`, `0 ≤ Y ≤ rowCount`. -/
def InGrid (colCount rowCount : Int) (n : Node) : Prop :=
  (0 ≤ n.X ∧ n.X ≤ colCount) ∧ (0 ≤ n.Y ∧ n.Y ≤ rowCount)

/-- Every cell of the snake's list has a `Value`, and that node lies on the grid. -/
def SnakeInGrid (s : State) : Prop :=
  ∀ cell ∈ s.head, ∃ n : Node, cell = some n ∧ InGrid s.colCount s.rowCount n

/-- The food exists and lies on the grid. -/
def FoodInGrid (s : State) : Prop :=
  ∃ f : Node, s.food = some f ∧ InGrid s.colCount s.rowCount f

/-- The invariant carried along the run: positive dimensions, a snake with a head, every
snake cell holding a node on the grid, the food on the grid. -/
def GameInv (s : State) : Prop :=
  0 < s.colCount ∧ 0 < s.rowCount ∧ s.head ≠ [] ∧ SnakeInGrid s ∧ FoodInGrid s

/-- The states the program can be in after `onStart`: `initSnake` has returned on a grid with
positive dimensions, and then ticks (`snakeMove`, with any random draws) and touch events
(`onTouch`, at any point of any surface) have run, one at a time, in any order. -/
inductive Reachable : State → Prop where
  | init (cols rows : Int) (r1 r2 : Nat) (s : State) :
      0 < cols → 0 < rows → initSnake cols rows r1 r2 = Except.ok s → Reachable s
  | step (s s' : State) (r1 r2 : Nat) :
      Reachable s → snakeMove s r1 r2 = Except.ok s' → Reachable s'
  | touch (s : State) (x y width height : Pt) :
      Reachable s → Reachable (onTouch x y width height s)

/-- A valid state of the specification: there is a head segment with a `Value`, there is a food,
the heading is one of the four directions, and every node of the snake and the food lie on
the grid. -/
def ValidState (s : State) : Prop :=
  (∃ (hv : Node) (next : List (Option Node)), s.head = some hv :: next) ∧
  (∃ f : Node, s.food = some f) ∧
  IsDirection s.direction ∧
  (∀ n : Node, some n ∈ s.head → InGrid s.colCount s.rowCount n) ∧
  (∀ f : Node, s.food = some f → InGrid s.colCount s.rowCount f)

/-- The reverse pairs of the specification: LEFT with RIGHT and UP with DOWN.  `IsReverse d h`
says that the requested direction `d` is the exact reverse of the heading `h`. -/
def IsReverse (d h : Int) : Prop :=
  (d = LEFT ∧ h = RIGHT) ∨ (d = RIGHT ∧ h = LEFT) ∨ (d = UP ∧ h = DOWN) ∨ (d = DOWN ∧ h = UP)

/-- The touch point `(x, y)` lies in the region of `onTouch` that maps to the direction `d`. -/
def InRegion (d : Int) (x y width height : Pt) : Prop :=
  (d = LEFT ∧ inLeft x y width height) ∨ (d = UP ∧ inUp x y width height) ∨
  (d = RIGHT ∧ inRight x y width height) ∨ (d = DOWN ∧ inDown x y width height)

/-- A touch event as `onTouch` sees it: the point and the surface size at that moment. -/
structure Touch where
  x : Pt
  y : Pt
  width : Pt
  height : Pt

/-- The handler run on a sequence of touch events, first to last. -/
def onTouches (ts : List Touch) (s : State) : State :=
  ts.foldl (fun st t => onTouch t.x t.y t.width t.height st) s

/-! ## Two states of the specification's scenario -/

/-- The state `initSnake` returns on a 10 by 10 grid when the draws put the food at `(4, 5)`. -/
def scenarioStart : State :=
  ⟨10, 10, [some ⟨HEAD, 5, 5⟩], some ⟨FOOD, 4, 5⟩, LEFT⟩

/-- The state after the first tick of `scenarioStart`, the food reappearing at `(0, 0)`. -/
def afterMeal : State :=
  ⟨10, 10, [some ⟨HEAD, 4, 5⟩, some ⟨BODY, 5, 5⟩], some ⟨FOOD, 0, 0⟩, LEFT⟩

/-! ## The torus of the specification -/

/-- Unit offset of a heading, as the specification lists them: LEFT and RIGHT change `x` by
one, UP and DOWN change `y` by one, with `y` growing downwards. -/
def unitOffset (direction : Int) : Int × Int :=
  if direction = LEFT then (-1, 0)
  else if direction = UP then (0, -1)
  else if direction = RIGHT then (1, 0)
  else if direction = DOWN then (0, 1)
  else (0, 0)

/-- The move on a torus of `width + 1` by `height + 1` cells, written from the specification's
words: add the offset and take the non-negative remainder. -/
def torusMove (width height direction x y : Int) : Int × Int :=
  ((x + (unitOffset direction).1) % (width + 1), (y + (unitOffset direction).2) % (height + 1))

/-! ## Machine integers -/

/-- The value a 64-bit signed Go `int` holds after an arithmetic result `z`. -/
def wrap64 (z : Int) : Int :=
  (z + 9223372036854775808) % 18446744073709551616 - 9223372036854775808

/-- The `switch direction` of `snakeMove` with each result stored in a 64-bit `int`. -/
def moveOffset64 (direction x y : Int) : Int × Int :=
  if direction = LEFT then (wrap64 (x - 1), y)
  else if direction = UP then (x, wrap64 (y - 1))
  else if direction = RIGHT then (wrap64 (x + 1), y)
  else if direction = DOWN then (x, wrap64 (y + 1))
  else (x, y)

/-! ## Lemmas on the wrap -/

/-- On a head inside a grid whose dimensions are below the largest `int`, the 64-bit offset is
the offset over `Int`: the only arithmetic of `snakeMove` does not overflow. -/
theorem moveOffset64_eq (colCount rowCount direction x y : Int)
    (hc : colCount < 9223372036854775807) (hr : rowCount < 9223372036854775807)
    (hx : 0 ≤ x ∧ x ≤ colCount) (hy : 0 ≤ y ∧ y ≤ rowCount) :
    moveOffset64 direction x y = moveOffset direction x y := by
  unfold moveOffset64 moveOffset wrap64
  split_ifs <;> simp only [Prod.mk.injEq, true_and, and_true] <;> omega

theorem wrapCoord_neg_one (bound : Int) : wrapCoord (-1) bound = bound := by
  simp [wrapCoord]

theorem wrapCoord_succ (bound : Int) (hb : 0 ≤ bound) : wrapCoord (bound + 1) bound = 0 := by
  unfold wrapCoord
  have h1 : ¬ (bound + 1 < 0) := by omega
  simp [h1]

theorem wrapCoord_inside (v bound : Int) (h0 : 0 ≤ v) (h1 : v ≤ bound) :
    wrapCoord v bound = v := by
  unfold wrapCoord
  have h2 : ¬ (v < 0) := by omega
  have h3 : ¬ (v > bound) := by omega
  simp [h2, h3]

theorem wrapCoord_range (v bound : Int) (hb : 0 ≤ bound) :
    0 ≤ wrapCoord v bound ∧ wrapCoord v bound ≤ bound := by
  unfold wrapCoord
  by_cases h : v < 0
  · have h3 : ¬ (bound > bound) := by omega
    simp [h, hb]
  · by_cases h2 : v > bound
    · simp [h, h2, hb]
    · simp [h, h2]
      omega

theorem wrapCoord_eq_emod (v bound : Int) (hb : 0 ≤ bound) (hl : -1 ≤ v) (hu : v ≤ bound + 1) :
    wrapCoord v bound = v % (bound + 1) := by
  rcases Int.lt_or_le v 0 with h | h
  · have hv : v = -1 := by omega
    subst hv
    rw [wrapCoord_neg_one]
    have e : (-1 : Int) = bound + (-1) * (bound + 1) := by ring
    rw [e, Int.add_mul_emod_self, Int.emod_eq_of_lt hb (by omega)]
  · rcases Int.lt_or_le bound v with h2 | h2
    · have hv : v = bound + 1 := by omega
      subst hv
      rw [wrapCoord_succ bound hb, Int.emod_self]
    · rw [wrapCoord_inside v bound h h2, Int.emod_eq_of_lt h (by omega)]

theorem candidate_range (colCount rowCount direction x y : Int) (hc : 0 ≤ colCount)
    (hr : 0 ≤ rowCount) :
    (0 ≤ (candidate colCount rowCount direction x y).1 ∧
      (candidate colCount rowCount direction x y).1 ≤ colCount) ∧
    (0 ≤ (candidate colCount rowCount direction x y).2 ∧
      (candidate colCount rowCount direction x y).2 ≤ rowCount) :=
  ⟨wrapCoord_range _ _ hc, wrapCoord_range _ _ hr⟩

/-! ## C4: the wrap of the candidate position -/

/-- C4: on a grid with `width ≥ 0` and `height ≥ 0` and a head position inside
`[0,width] × [0,height]`, the candidate of `snakeMove` has `x = width` when the offset gives
`x = -1`, `x = 0` when the offset gives `x = width + 1`, `y = height` when the offset gives
`y = -1`, `y = 0` when the offset gives `y = height + 1`, and a coordinate that the offset
leaves inside its range is kept as offset.  These cases are all there are: the offset
coordinates lie in `[-1, width + 1]` and `[-1, height + 1]`. -/
theorem candidate_wraps (width height direction x y : Int) (hw : 0 ≤ width) (hh : 0 ≤ height)
    (hx : 0 ≤ x ∧ x ≤ width) (hy : 0 ≤ y ∧ y ≤ height) :
    ((moveOffset direction x y).1 = -1 → (candidate width height direction x y).1 = width) ∧
    ((moveOffset direction x y).1 = width + 1 → (candidate width height direction x y).1 = 0) ∧
    ((moveOffset direction x y).2 = -1 → (candidate width height direction x y).2 = height) ∧
    ((moveOffset direction x y).2 = height + 1 →
      (candidate width height direction x y).2 = 0) ∧
    (0 ≤ (moveOffset direction x y).1 ∧ (moveOffset direction x y).1 ≤ width →
      (candidate width height direction x y).1 = (moveOffset direction x y).1) ∧
    (0 ≤ (moveOffset direction x y).2 ∧ (moveOffset direction x y).2 ≤ height →
      (candidate width height direction x y).2 = (moveOffset direction x y).2) ∧
    (-1 ≤ (moveOffset direction x y).1 ∧ (moveOffset direction x y).1 ≤ width + 1) ∧
    (-1 ≤ (moveOffset direction x y).2 ∧ (moveOffset direction x y).2 ≤ height + 1) := by
  refine ⟨?_, ?_, ?_, ?_, ?_, ?_, ?_, ?_⟩
  · intro h
    simp only [candidate, h, wrapCoord_neg_one]
  · intro h
    simp only [candidate, h, wrapCoord_succ width hw]
  · intro h
    simp only [candidate, h, wrapCoord_neg_one]
  · intro h
    simp only [candidate, h, wrapCoord_succ height hh]
  · intro h
    simp only [candidate, wrapCoord_inside _ _ h.1 h.2]
  · intro h
    simp only [candidate, wrapCoord_inside _ _ h.1 h.2]
  · unfold moveOffset
    split_ifs <;> simp only <;> omega
  · unfold moveOffset
    split_ifs <;> simp only <;> omega

/-- C4 at the specification's scenario: grid 10 by 10, head at `(0, 5)`, heading LEFT; the
offset gives `x = -1` and the candidate is `(10, 5)`. -/
theorem candidate_wraps_witness :
    (moveOffset LEFT 0 5).1 = -1 ∧ (candidate 10 10 LEFT 0 5).1 = 10 ∧
      (candidate 10 10 LEFT 0 5).2 = 5 :=
  ⟨by decide,
    (candidate_wraps 10 10 LEFT 0 5 (by decide) (by decide) (by decide) (by decide)).1
      (by decide),
    (candidate_wraps 10 10 LEFT 0 5 (by decide) (by decide) (by decide) (by decide)).2.2.2.2.2.1
      (by decide)⟩

/-! ## C10: the wrap is arithmetic on a torus -/

theorem moveOffset_eq_unitOffset (direction x y : Int) :
    moveOffset direction x y =
      (x + (unitOffset direction).1, y + (unitOffset direction).2) := by
  unfold moveOffset unitOffset
  split_ifs <;> simp <;> ring

theorem unitOffset_bounds (direction : Int) :
    (-1 ≤ (unitOffset direction).1 ∧ (unitOffset direction).1 ≤ 1) ∧
    (-1 ≤ (unitOffset direction).2 ∧ (unitOffset direction).2 ≤ 1) := by
  unfold unitOffset
  split_ifs <;> simp

theorem candidate_eq_torusMove (width height direction x y : Int) (hw : 0 ≤ width)
    (hh : 0 ≤ height) (hx : 0 ≤ x ∧ x ≤ width) (hy : 0 ≤ y ∧ y ≤ height) :
    candidate width height direction x y = torusMove width height direction x y := by
  have hb := unitOffset_bounds direction
  unfold candidate torusMove
  rw [moveOffset_eq_unitOffset]
  simp only
  rw [wrapCoord_eq_emod _ _ hw (by omega) (by omega),
    wrapCoord_eq_emod _ _ hh (by omega) (by omega)]

theorem candidate_right_left (width height x y : Int)
    (hx : 0 ≤ x ∧ x ≤ width) (hy : 0 ≤ y ∧ y ≤ height) :
    candidate width height LEFT (candidate width height RIGHT x y).1
      (candidate width height RIGHT x y).2 = (x, y) := by
  simp only [candidate, moveOffset, wrapCoord, LEFT, RIGHT, UP, DOWN]
  norm_num
  constructor <;> split_ifs <;> omega

theorem candidate_left_right (width height x y : Int)
    (hx : 0 ≤ x ∧ x ≤ width) (hy : 0 ≤ y ∧ y ≤ height) :
    candidate width height RIGHT (candidate width height LEFT x y).1
      (candidate width height LEFT x y).2 = (x, y) := by
  simp only [candidate, moveOffset, wrapCoord, LEFT, RIGHT, UP, DOWN]
  norm_num
  constructor <;> split_ifs <;> omega

theorem candidate_down_up (width height x y : Int)
    (hx : 0 ≤ x ∧ x ≤ width) (hy : 0 ≤ y ∧ y ≤ height) :
    candidate width height UP (candidate width height DOWN x y).1
      (candidate width height DOWN x y).2 = (x, y) := by
  simp only [candidate, moveOffset, wrapCoord, LEFT, RIGHT, UP, DOWN]
  norm_num
  constructor <;> split_ifs <;> omega

theorem candidate_up_down (width height x y : Int)
    (hx : 0 ≤ x ∧ x ≤ width) (hy : 0 ≤ y ∧ y ≤ height) :
    candidate width height DOWN (candidate width height UP x y).1
      (candidate width height UP x y).2 = (x, y) := by
  simp only [candidate, moveOffset, wrapCoord, LEFT, RIGHT, UP, DOWN]
  norm_num
  constructor <;> split_ifs <;> omega

/-- C10: for `width ≥ 0`, `height ≥ 0`, a head position `(x, y)` inside
`[0,width] × [0,height]` and each of the four headings, the candidate of `snakeMove` equals
`((x + dx) mod (width+1), (y + dy) mod (height+1))` with the non-negative remainder, where
`(dx, dy)` is the unit offset of the heading; and on such positions the LEFT and RIGHT
candidates are inverse to each other, as are the UP and DOWN candidates. -/
theorem candidate_is_torus_arithmetic (width height x y : Int) (hw : 0 ≤ width)
    (hh : 0 ≤ height) (hx : 0 ≤ x ∧ x ≤ width) (hy : 0 ≤ y ∧ y ≤ height) :
    (∀ d : Int, IsDirection d →
      candidate width height d x y = torusMove width height d x y) ∧
    candidate width height LEFT (candidate width height RIGHT x y).1
      (candidate width height RIGHT x y).2 = (x, y) ∧
    candidate width height RIGHT (candidate width height LEFT x y).1
      (candidate width height LEFT x y).2 = (x, y) ∧
    candidate width height UP (candidate width height DOWN x y).1
      (candidate width height DOWN x y).2 = (x, y) ∧
    candidate width height DOWN (candidate width height UP x y).1
      (candidate width height UP x y).2 = (x, y) :=
  ⟨fun d _ => candidate_eq_torusMove width height d x y hw hh hx hy,
    candidate_right_left width height x y hx hy,
    candidate_left_right width height x y hx hy,
    candidate_down_up width height x y hx hy,
    candidate_up_down width height x y hx hy⟩

/-- C10 at the head `(0, 5)` of a 10 by 10 grid: the LEFT candidate is the torus move
`(10, 5)`, and going RIGHT and then LEFT returns to `(0, 5)`. -/
theorem candidate_is_torus_arithmetic_witness :
    candidate 10 10 LEFT 0 5 = torusMove 10 10 LEFT 0 5 ∧
      candidate 10 10 LEFT (candidate 10 10 RIGHT 0 5).1 (candidate 10 10 RIGHT 0 5).2 =
        (0, 5) :=
  ⟨(candidate_is_torus_arithmetic 10 10 0 5 (by decide) (by decide) (by decide)
      (by decide)).1 LEFT (Or.inr (Or.inr (Or.inl rfl))),
    (candidate_is_torus_arithmetic 10 10 0 5 (by decide) (by decide) (by decide)
      (by decide)).2.1⟩

/-! ## C1 and C2: what one tick does to the snake -/

theorem checkCanEat_iff (f : Node) (x y : Int) :
    checkCanEat f x y = true ↔ (x, y) = (f.X, f.Y) := by
  simp [checkCanEat]

theorem shiftBody_map_some (body : List Node) :
    ∀ preX preY : Int, ∃ nodes : List Node,
      shiftBody (body.map some) preX preY = nodes.map some ∧
      nodes.map Node.pos = ((preX, preY) :: body.map Node.pos).dropLast ∧
      nodes.map Node.NodeType = body.map Node.NodeType := by
  induction body with
  | nil =>
    intro preX preY
    exact ⟨[], by simp [shiftBody]⟩
  | cons v rest ih =>
    intro preX preY
    obtain ⟨nodes, h1, h2, h3⟩ := ih v.X v.Y
    refine ⟨v.SetLocation preX preY :: nodes, ?_, ?_, ?_⟩
    · simp [shiftBody, h1]
    · simp only [List.map_cons, h2]
      rw [List.dropLast_cons_of_ne_nil (List.cons_ne_nil _ _)]
      simp [Node.pos, Node.SetLocation]
    · simp [h3, Node.SetLocation]

/-- C1: in a state whose snake is the segments `hv :: body` (head first, every `Value`
present) and whose candidate head position differs from the food position, `snakeMove`
returns, and the snake it leaves has the same number of segments, at the positions
`candidate :: p0 :: ... :: p(n-2)` (the old positions without the last one, shifted back by
one segment), with the node types in the old order; the food and the other variables are
unchanged. -/
theorem snakeMove_without_food (s : State) (hv : Node) (body : List Node) (f : Node)
    (r1 r2 : Nat) (hhead : s.head = (hv :: body).map some) (hfood : s.food = some f)
    (hne : candidate s.colCount s.rowCount s.direction hv.X hv.Y ≠ (f.X, f.Y)) :
    ∃ (s' : State) (nodes : List Node),
      snakeMove s r1 r2 = Except.ok s' ∧ s'.head = nodes.map some ∧
      nodes.length = (hv :: body).length ∧
      nodes.map Node.pos =
        candidate s.colCount s.rowCount s.direction hv.X hv.Y ::
          ((hv :: body).map Node.pos).dropLast ∧
      nodes.map Node.NodeType = (hv :: body).map Node.NodeType ∧
      s'.food = s.food ∧ s'.direction = s.direction ∧
      s'.colCount = s.colCount ∧ s'.rowCount = s.rowCount := by
  obtain ⟨nodes, h1, h2, h3⟩ := shiftBody_map_some body hv.X hv.Y
  obtain ⟨c, hcdef⟩ : ∃ c, c = candidate s.colCount s.rowCount s.direction hv.X hv.Y :=
    ⟨_, rfl⟩
  rw [← hcdef] at hne ⊢
  have hc : checkCanEat f c.1 c.2 = false := by
    rw [Bool.eq_false_iff]
    intro h
    exact hne ((checkCanEat_iff _ _ _).1 h)
  have hlen : nodes.length = body.length := by
    have := congrArg List.length h3
    simpa using this
  have hstep : snakeMove s r1 r2 =
      Except.ok { s with head := some (hv.SetLocation c.1 c.2) :: List.map some nodes } := by
    simp only [List.map_cons] at hhead
    simp only [snakeMove, hhead, hfood, ← hcdef, hc, Bool.false_eq_true, if_false, h1]
  refine ⟨_, hv.SetLocation c.1 c.2 :: nodes, hstep, ?_, ?_, ?_, ?_, ?_⟩
  · simp [h1]
  · simp [hlen]
  · simp only [List.map_cons, h2]
    simp [Node.pos, Node.SetLocation]
  · simp [h3, Node.SetLocation]
  · exact ⟨rfl, rfl, rfl, rfl⟩

/-- C1 on a three-segment snake at `(5,5), (6,5), (7,5)` heading LEFT on a 10 by 10 grid with
the food at `(0, 0)`. -/
theorem snakeMove_without_food_witness :
    ∃ (s' : State) (nodes : List Node),
      snakeMove ⟨10, 10, [some ⟨HEAD, 5, 5⟩, some ⟨BODY, 6, 5⟩, some ⟨BODY, 7, 5⟩],
        some ⟨FOOD, 0, 0⟩, LEFT⟩ 0 0 = Except.ok s' ∧ s'.head = nodes.map some ∧
      nodes.length = 3 ∧
      nodes.map Node.pos = [(4, 5), (5, 5), (6, 5)] ∧
      nodes.map Node.NodeType = [HEAD, BODY, BODY] ∧
      s'.food = some ⟨FOOD, 0, 0⟩ ∧ s'.direction = LEFT ∧
      s'.colCount = 10 ∧ s'.rowCount = 10 :=
  snakeMove_without_food
    ⟨10, 10, [some ⟨HEAD, 5, 5⟩, some ⟨BODY, 6, 5⟩, some ⟨BODY, 7, 5⟩], some ⟨FOOD, 0, 0⟩, LEFT⟩
    ⟨HEAD, 5, 5⟩ [⟨BODY, 6, 5⟩, ⟨BODY, 7, 5⟩] ⟨FOOD, 0, 0⟩ 0 0 rfl rfl (by decide)


theorem Intn_of_pos (n : Int) (r : Nat) (hn : 0 < n) : Intn n r = Except.ok ((r : Int) % n) := by
  unfold Intn
  have h : ¬ (n ≤ 0) := by omega
  simp [h]

theorem Intn_of_nonpos (n : Int) (r : Nat) (hn : n ≤ 0) :
    Intn n r = Except.error Panic.intnArgument := by
  simp [Intn, hn]

theorem snakeMove_eat_eq (s : State) (hv : Node) (next : List (Option Node)) (f : Node)
    (r1 r2 : Nat) (hhead : s.head = some hv :: next) (hfood : s.food = some f)
    (heq : candidate s.colCount s.rowCount s.direction hv.X hv.Y = (f.X, f.Y))
    (hc : 0 < s.colCount) (hr : 0 < s.rowCount) :
    snakeMove s r1 r2 =
      Except.ok
        { s with
          head := some (hv.SetLocation f.X f.Y) :: some ⟨BODY, hv.X, hv.Y⟩ :: next
          food := some (f.SetLocation ((r1 : Int) % s.colCount) ((r2 : Int) % s.rowCount)) } := by
  have hce : checkCanEat f f.X f.Y = true := (checkCanEat_iff _ _ _).2 rfl
  simp only [snakeMove, hhead, hfood, heq, hce, if_true, snakeEat, Intn_of_pos _ _ hc,
    Intn_of_pos _ _ hr, newSnakeNode, newNode, Option.map_some', Node.SetLocation]

/-- C2, as the code has it: in a state with positive grid dimensions whose snake is the
segments `hv :: body` (head first, every `Value` present) and whose candidate head position
equals the food position, `snakeMove` returns, and the snake it leaves is the old head node
moved to the candidate, then a new node of type `BODY` at the old head position, then the old
body untouched: `n + 1` segments at the positions `candidate :: p0 :: ... :: p(n-1)`. -/
theorem snakeMove_with_food (s : State) (hv : Node) (body : List Node) (f : Node)
    (r1 r2 : Nat) (hhead : s.head = (hv :: body).map some) (hfood : s.food = some f)
    (heq : candidate s.colCount s.rowCount s.direction hv.X hv.Y = (f.X, f.Y))
    (hc : 0 < s.colCount) (hr : 0 < s.rowCount) :
    ∃ (s' : State) (nodes : List Node),
      snakeMove s r1 r2 = Except.ok s' ∧ s'.head = nodes.map some ∧
      nodes =
        hv.SetLocation (candidate s.colCount s.rowCount s.direction hv.X hv.Y).1
          (candidate s.colCount s.rowCount s.direction hv.X hv.Y).2 ::
          ⟨BODY, hv.X, hv.Y⟩ :: body ∧
      nodes.length = (hv :: body).length + 1 ∧
      nodes.map Node.pos =
        candidate s.colCount s.rowCount s.direction hv.X hv.Y :: (hv :: body).map Node.pos ∧
      s'.direction = s.direction ∧ s'.colCount = s.colCount ∧ s'.rowCount = s.rowCount := by
  have hstep := snakeMove_eat_eq s hv (body.map some) f r1 r2
    (by simpa using hhead) hfood heq hc hr
  rw [heq]
  refine ⟨_, hv.SetLocation f.X f.Y :: ⟨BODY, hv.X, hv.Y⟩ :: body, hstep, ?_, rfl, ?_, ?_,
    rfl, rfl, rfl⟩
  · simp
  · simp
  · simp [Node.pos, Node.SetLocation]

/-- C2 at the specification's scenario: grid 10 by 10, head at `(5, 5)`, heading LEFT, food
at `(4, 5)`; after the tick the snake is the head at `(4, 5)` and a `BODY` node at `(5, 5)`. -/
theorem snakeMove_with_food_witness :
    ∃ (s' : State) (nodes : List Node),
      snakeMove ⟨10, 10, [some ⟨HEAD, 5, 5⟩], some ⟨FOOD, 4, 5⟩, LEFT⟩ 3 7 = Except.ok s' ∧
      s'.head = nodes.map some ∧
      nodes = [⟨HEAD, 4, 5⟩, ⟨BODY, 5, 5⟩] ∧
      nodes.length = 2 ∧
      nodes.map Node.pos = [(4, 5), (5, 5)] ∧
      s'.direction = LEFT ∧ s'.colCount = 10 ∧ s'.rowCount = 10 :=
  snakeMove_with_food ⟨10, 10, [some ⟨HEAD, 5, 5⟩], some ⟨FOOD, 4, 5⟩, LEFT⟩
    ⟨HEAD, 5, 5⟩ [] ⟨FOOD, 4, 5⟩ 3 7 rfl rfl (by decide) (by decide) (by decide)

/-- C2 as stated fails: with `colCount = 0` and `rowCount = 10`, the one-segment snake at
`(0, 5)` heading UP has the candidate `(0, 4)`, which is the food position; `snakeEat` then
calls `rand.Intn(0)` and the tick panics whatever the draws, so no tick leaves a snake of two
segments. -/
theorem eating_step_panics_without_columns :
    candidate 0 10 UP 0 5 = (0, 4) ∧
    (∀ r1 r2 : Nat,
      snakeMove ⟨10, 0, [some ⟨HEAD, 0, 5⟩], some ⟨FOOD, 0, 4⟩, UP⟩ r1 r2 =
        Except.error Panic.intnArgument) ∧
    ¬ ∃ (r1 r2 : Nat) (s' : State) (nodes : List Node),
      snakeMove ⟨10, 0, [some ⟨HEAD, 0, 5⟩], some ⟨FOOD, 0, 4⟩, UP⟩ r1 r2 = Except.ok s' ∧
        s'.head = nodes.map some ∧ nodes.length = 2 := by
  have hc : candidate 0 10 UP 0 5 = (0, 4) := by decide
  have he : checkCanEat ⟨FOOD, 0, 4⟩ 0 4 = true := by decide
  have hpanic : ∀ r1 r2 : Nat,
      snakeMove ⟨10, 0, [some ⟨HEAD, 0, 5⟩], some ⟨FOOD, 0, 4⟩, UP⟩ r1 r2 =
        Except.error Panic.intnArgument := by
    intro r1 r2
    simp only [snakeMove, hc, he, if_true, snakeEat, Intn_of_nonpos 0 r1 (le_refl 0)]
  refine ⟨hc, hpanic, ?_⟩
  rintro ⟨r1, r2, s', nodes, hstep, _, _⟩
  rw [hpanic r1 r2] at hstep
  cases hstep

/-! ## C5: where the food can reappear -/

theorem snakeMove_move_eq (s : State) (hv : Node) (next : List (Option Node)) (f : Node)
    (r1 r2 : Nat) (hhead : s.head = some hv :: next) (hfood : s.food = some f)
    (hne : candidate s.colCount s.rowCount s.direction hv.X hv.Y ≠ (f.X, f.Y)) :
    snakeMove s r1 r2 =
      Except.ok
        { s with
          head :=
            some (hv.SetLocation (candidate s.colCount s.rowCount s.direction hv.X hv.Y).1
              (candidate s.colCount s.rowCount s.direction hv.X hv.Y).2) ::
              shiftBody next hv.X hv.Y } := by
  have hc : checkCanEat f (candidate s.colCount s.rowCount s.direction hv.X hv.Y).1
      (candidate s.colCount s.rowCount s.direction hv.X hv.Y).2 = false := by
    rw [Bool.eq_false_iff]
    intro h
    exact hne ((checkCanEat_iff _ _ _).1 h)
  simp only [snakeMove, hhead, hfood, hc, Bool.false_eq_true, if_false]

/-- C5, as the code has it: on a grid with positive dimensions, when the candidate head
position equals the food position, `snakeMove` returns for every pair of random draws, the
relocated food always has `0 ≤ X < colCount` and `0 ≤ Y < rowCount`, and every position of
`[0, colCount) × [0, rowCount)` is the relocated food position for some pair of draws. -/
theorem food_relocation_range (s : State) (hv : Node) (next : List (Option Node)) (f : Node)
    (hhead : s.head = some hv :: next) (hfood : s.food = some f)
    (heq : candidate s.colCount s.rowCount s.direction hv.X hv.Y = (f.X, f.Y))
    (hc : 0 < s.colCount) (hr : 0 < s.rowCount) :
    (∀ r1 r2 : Nat, ∃ (s' : State) (f' : Node),
      snakeMove s r1 r2 = Except.ok s' ∧ s'.food = some f' ∧
      (0 ≤ f'.X ∧ f'.X < s.colCount) ∧ (0 ≤ f'.Y ∧ f'.Y < s.rowCount)) ∧
    (∀ a b : Int, 0 ≤ a ∧ a < s.colCount → 0 ≤ b ∧ b < s.rowCount →
      ∃ (r1 r2 : Nat) (s' : State) (f' : Node),
        snakeMove s r1 r2 = Except.ok s' ∧ s'.food = some f' ∧ f'.X = a ∧ f'.Y = b) := by
  constructor
  · intro r1 r2
    refine ⟨_, _, snakeMove_eat_eq s hv next f r1 r2 hhead hfood heq hc hr, rfl, ?_, ?_⟩
    · exact ⟨Int.emod_nonneg _ (by omega), Int.emod_lt_of_pos _ hc⟩
    · exact ⟨Int.emod_nonneg _ (by omega), Int.emod_lt_of_pos _ hr⟩
  · intro a b ha hb
    refine ⟨a.toNat, b.toNat, _, _,
      snakeMove_eat_eq s hv next f a.toNat b.toNat hhead hfood heq hc hr, rfl, ?_, ?_⟩
    · show ((a.toNat : Int) % s.colCount) = a
      rw [Int.toNat_of_nonneg ha.1, Int.emod_eq_of_lt ha.1 ha.2]
    · show ((b.toNat : Int) % s.rowCount) = b
      rw [Int.toNat_of_nonneg hb.1, Int.emod_eq_of_lt hb.1 hb.2]

/-- C5 at the specification's scenario (grid 10 by 10, head `(5, 5)`, heading LEFT, food
`(4, 5)`): the food can reappear at `(9, 9)`. -/
theorem food_relocation_range_witness :
    ∃ (r1 r2 : Nat) (s' : State) (f' : Node),
      snakeMove ⟨10, 10, [some ⟨HEAD, 5, 5⟩], some ⟨FOOD, 4, 5⟩, LEFT⟩ r1 r2 = Except.ok s' ∧
        s'.food = some f' ∧ f'.X = 9 ∧ f'.Y = 9 :=
  (food_relocation_range ⟨10, 10, [some ⟨HEAD, 5, 5⟩], some ⟨FOOD, 4, 5⟩, LEFT⟩
    ⟨HEAD, 5, 5⟩ [] ⟨FOOD, 4, 5⟩ rfl rfl (by decide) (by decide) (by decide)).2 9 9
    (by decide) (by decide)

/-- C5 as stated fails: on the 10 by 10 grid of the specification's scenario the food is
eaten (the candidate `(4, 5)` is the food position), the position `(10, 0)` lies in
`[0, 10] × [0, 10]`, and no pair of random draws relocates the food to it. -/
theorem food_never_on_column_width :
    candidate 10 10 LEFT 5 5 = (4, 5) ∧
    ¬ ∃ (r1 r2 : Nat) (s' : State) (f' : Node),
      snakeMove ⟨10, 10, [some ⟨HEAD, 5, 5⟩], some ⟨FOOD, 4, 5⟩, LEFT⟩ r1 r2 = Except.ok s' ∧
        s'.food = some f' ∧ f'.X = 10 ∧ f'.Y = 0 := by
  refine ⟨by decide, ?_⟩
  rintro ⟨r1, r2, s', f', hstep, hf, hx, _⟩
  rw [snakeMove_eat_eq ⟨10, 10, [some ⟨HEAD, 5, 5⟩], some ⟨FOOD, 4, 5⟩, LEFT⟩
    ⟨HEAD, 5, 5⟩ [] ⟨FOOD, 4, 5⟩ r1 r2 rfl rfl (by decide) (by decide) (by decide)] at hstep
  injection hstep with hstep
  subst hstep
  simp only [Node.SetLocation, Option.some.injEq] at hf
  subst hf
  simp only at hx
  omega

/-! ## C8: the grid invariant of a running game -/

theorem shiftBody_inGrid (colCount rowCount : Int) :
    ∀ (next : List (Option Node)) (preX preY : Int),
      (∀ n : Node, some n ∈ next → InGrid colCount rowCount n) →
      (0 ≤ preX ∧ preX ≤ colCount) ∧ (0 ≤ preY ∧ preY ≤ rowCount) →
      ∀ n : Node, some n ∈ shiftBody next preX preY → InGrid colCount rowCount n := by
  intro next
  induction next with
  | nil =>
    intro preX preY _ _ n hn
    simp [shiftBody] at hn
  | cons c rest ih =>
    intro preX preY hall hpre n hn
    cases c with
    | none =>
      simp only [shiftBody] at hn
      exact hall n hn
    | some v =>
      simp only [shiftBody, List.mem_cons, Option.some.injEq] at hn
      rcases hn with hn | hn
      · subst hn
        exact hpre
      · have hv : InGrid colCount rowCount v := hall v (List.mem_cons_self _ _)
        exact ih v.X v.Y (fun m hm => hall m (List.mem_cons_of_mem _ hm)) hv n hn

theorem shiftBody_all_some :
    ∀ (next : List (Option Node)) (preX preY : Int),
      (∀ cell ∈ next, cell ≠ none) → ∀ cell ∈ shiftBody next preX preY, cell ≠ none := by
  intro next
  induction next with
  | nil =>
    intro preX preY _ cell hc
    simp [shiftBody] at hc
  | cons c rest ih =>
    intro preX preY hall cell hc
    cases c with
    | none => exact absurd rfl (hall none (List.mem_cons_self _ _))
    | some v =>
      simp only [shiftBody, List.mem_cons] at hc
      rcases hc with hc | hc
      · subst hc
        simp
      · exact ih v.X v.Y (fun m hm => hall m (List.mem_cons_of_mem _ hm)) cell hc

theorem shiftBody_snake (colCount rowCount : Int) (next : List (Option Node)) (preX preY : Int)
    (hall : ∀ cell ∈ next, ∃ n : Node, cell = some n ∧ InGrid colCount rowCount n)
    (hpre : (0 ≤ preX ∧ preX ≤ colCount) ∧ (0 ≤ preY ∧ preY ≤ rowCount)) :
    ∀ cell ∈ shiftBody next preX preY,
      ∃ n : Node, cell = some n ∧ InGrid colCount rowCount n := by
  intro cell hc
  have h1 : cell ≠ none :=
    shiftBody_all_some next preX preY
      (fun c hcm => by
        obtain ⟨n, hn, _⟩ := hall c hcm
        simp [hn]) cell hc
  obtain ⟨n, hn⟩ := Option.ne_none_iff_exists'.1 h1
  subst hn
  refine ⟨n, rfl, ?_⟩
  exact shiftBody_inGrid colCount rowCount next preX preY
    (fun m hm => by
      obtain ⟨k, hk, hg⟩ := hall (some m) hm
      cases hk
      exact hg) hpre n hc

theorem GameInv_head (s : State) (h : GameInv s) :
    ∃ (hv : Node) (next : List (Option Node)), s.head = some hv :: next ∧
      InGrid s.colCount s.rowCount hv ∧
      ∀ cell ∈ next, ∃ n : Node, cell = some n ∧ InGrid s.colCount s.rowCount n := by
  obtain ⟨_, _, hne, hsnake, _⟩ := h
  cases hh : s.head with
  | nil => exact absurd hh hne
  | cons c next =>
    obtain ⟨hv, hc, hg⟩ := hsnake c (by simp [hh])
    subst hc
    exact ⟨hv, next, rfl, hg, fun cell hcell => hsnake cell (by simp [hh, hcell])⟩

theorem initSnake_inv (cols rows : Int) (r1 r2 : Nat) (s : State) (hc : 0 < cols)
    (hr : 0 < rows) (h : initSnake cols rows r1 r2 = Except.ok s) : GameInv s := by
  simp only [initSnake, Intn_of_pos _ _ hc, Intn_of_pos _ _ hr, newSnakeNode, newNode,
    Option.map_some', Node.SetLocation] at h
  injection h with h
  subst h
  have e1 : Int.tdiv cols 2 = cols / 2 := Int.tdiv_eq_ediv (by omega) (by norm_num)
  have e2 : Int.tdiv rows 2 = rows / 2 := Int.tdiv_eq_ediv (by omega) (by norm_num)
  have f1 := Int.emod_nonneg (r1 : Int) (show cols ≠ 0 by omega)
  have f2 := Int.emod_lt_of_pos (r1 : Int) hc
  have f3 := Int.emod_nonneg (r2 : Int) (show rows ≠ 0 by omega)
  have f4 := Int.emod_lt_of_pos (r2 : Int) hr
  refine ⟨hc, hr, by simp, ?_, ?_⟩
  · intro cell hcell
    simp only [List.mem_singleton] at hcell
    subst hcell
    refine ⟨_, rfl, ?_⟩
    simp only [InGrid, e1, e2]
    omega
  · refine ⟨_, rfl, ?_⟩
    simp only [InGrid]
    omega

theorem snakeMove_inv (s s' : State) (r1 r2 : Nat) (hinv : GameInv s)
    (h : snakeMove s r1 r2 = Except.ok s') : GameInv s' := by
  obtain ⟨hv, next, hhead, hhv, hnext⟩ := GameInv_head s hinv
  obtain ⟨hc, hr, _, _, f, hfood, hf⟩ := hinv
  have hcand := candidate_range s.colCount s.rowCount s.direction hv.X hv.Y
    (le_of_lt hc) (le_of_lt hr)
  by_cases heq : candidate s.colCount s.rowCount s.direction hv.X hv.Y = (f.X, f.Y)
  · rw [snakeMove_eat_eq s hv next f r1 r2 hhead hfood heq hc hr] at h
    injection h with h
    subst h
    have f1 := Int.emod_nonneg (r1 : Int) (show s.colCount ≠ 0 by omega)
    have f2 := Int.emod_lt_of_pos (r1 : Int) hc
    have f3 := Int.emod_nonneg (r2 : Int) (show s.rowCount ≠ 0 by omega)
    have f4 := Int.emod_lt_of_pos (r2 : Int) hr
    refine ⟨hc, hr, by simp, ?_, ?_⟩
    · intro cell hcell
      simp only [List.mem_cons] at hcell
      rcases hcell with hcell | hcell | hcell
      · subst hcell
        exact ⟨_, rfl, hf⟩
      · subst hcell
        exact ⟨_, rfl, hhv⟩
      · exact hnext cell hcell
    · refine ⟨_, rfl, ?_⟩
      simp only [InGrid, Node.SetLocation]
      omega
  · rw [snakeMove_move_eq s hv next f r1 r2 hhead hfood heq] at h
    injection h with h
    subst h
    refine ⟨hc, hr, by simp, ?_, ⟨f, hfood, hf⟩⟩
    intro cell hcell
    simp only [List.mem_cons] at hcell
    rcases hcell with hcell | hcell
    · subst hcell
      exact ⟨_, rfl, hcand⟩
    · exact shiftBody_snake s.colCount s.rowCount next hv.X hv.Y hnext hhv cell hcell

theorem onTouch_fields (x y width height : Pt) (s : State) :
    (onTouch x y width height s).head = s.head ∧
    (onTouch x y width height s).food = s.food ∧
    (onTouch x y width height s).colCount = s.colCount ∧
    (onTouch x y width height s).rowCount = s.rowCount := by
  unfold onTouch
  split_ifs <;> exact ⟨rfl, rfl, rfl, rfl⟩

theorem onTouch_inv (x y width height : Pt) (s : State) (hinv : GameInv s) :
    GameInv (onTouch x y width height s) := by
  obtain ⟨h1, h2, h3, h4⟩ := onTouch_fields x y width height s
  unfold GameInv SnakeInGrid FoodInGrid at *
  rw [h1, h2, h3, h4]
  exact hinv

theorem reachable_inv (s : State) (h : Reachable s) : GameInv s := by
  induction h with
  | init cols rows r1 r2 s hc hr hinit => exact initSnake_inv cols rows r1 r2 s hc hr hinit
  | step s s' r1 r2 _ hstep ih => exact snakeMove_inv s s' r1 r2 ih hstep
  | touch s x y width height _ ih => exact onTouch_inv x y width height s ih

theorem GameInv_step_ok (s : State) (r1 r2 : Nat) (hinv : GameInv s) :
    ∃ s' : State, snakeMove s r1 r2 = Except.ok s' := by
  obtain ⟨hv, next, hhead, _, _⟩ := GameInv_head s hinv
  obtain ⟨hc, hr, _, _, f, hfood, _⟩ := hinv
  by_cases heq : candidate s.colCount s.rowCount s.direction hv.X hv.Y = (f.X, f.Y)
  · exact ⟨_, snakeMove_eat_eq s hv next f r1 r2 hhead hfood heq hc hr⟩
  · exact ⟨_, snakeMove_move_eq s hv next f r1 r2 hhead hfood heq⟩

theorem scenarioStart_reachable : Reachable scenarioStart :=
  Reachable.init 10 10 4 5 scenarioStart (by decide) (by decide) rfl

theorem afterMeal_reachable : Reachable afterMeal :=
  Reachable.step scenarioStart afterMeal 0 0 scenarioStart_reachable rfl

/-- C8: in every state reachable from `initSnake` on a grid with positive dimensions by ticks
and touch events, whatever the random draws, the snake has a head, every cell of the snake
holds a node with `0 ≤ X ≤ colCount` and `0 ≤ Y ≤ rowCount`, and the food exists and has
`0 ≤ X ≤ colCount` and `0 ≤ Y ≤ rowCount`. -/
theorem reachable_in_grid (s : State) (h : Reachable s) :
    s.head ≠ [] ∧
    (∀ cell ∈ s.head, ∃ n : Node, cell = some n ∧
      (0 ≤ n.X ∧ n.X ≤ s.colCount) ∧ (0 ≤ n.Y ∧ n.Y ≤ s.rowCount)) ∧
    (∃ f : Node, s.food = some f ∧
      (0 ≤ f.X ∧ f.X ≤ s.colCount) ∧ (0 ≤ f.Y ∧ f.Y ≤ s.rowCount)) := by
  obtain ⟨_, _, hne, hsnake, hfood⟩ := reachable_inv s h
  exact ⟨hne, hsnake, hfood⟩

/-- C8 at the state after the first meal of the specification's scenario: the head `(4, 5)`
and the body node `(5, 5)` lie on the 10 by 10 grid, and so does the food. -/
theorem reachable_in_grid_witness :
    Reachable afterMeal ∧ afterMeal.head ≠ [] ∧
    (∀ cell ∈ afterMeal.head, ∃ n : Node, cell = some n ∧
      (0 ≤ n.X ∧ n.X ≤ 10) ∧ (0 ≤ n.Y ∧ n.Y ≤ 10)) ∧
    (∃ f : Node, afterMeal.food = some f ∧ (0 ≤ f.X ∧ f.X ≤ 10) ∧ (0 ≤ f.Y ∧ f.Y ≤ 10)) :=
  ⟨afterMeal_reachable, reachable_in_grid afterMeal afterMeal_reachable⟩

/-! ## float32 rounding -/

theorem floor_le_roundHalfEven (r : ℚ) : ⌊r⌋ ≤ roundHalfEven r := by
  unfold roundHalfEven
  split_ifs <;> omega

theorem roundHalfEven_le_floor_succ (r : ℚ) : roundHalfEven r ≤ ⌊r⌋ + 1 := by
  unfold roundHalfEven
  split_ifs <;> omega

theorem int_le_roundHalfEven (r : ℚ) (n : ℤ) (h : (n : ℚ) ≤ r) : n ≤ roundHalfEven r :=
  le_trans (Int.le_floor.2 h) (floor_le_roundHalfEven r)

theorem roundHalfEven_le_int (r : ℚ) (n : ℤ) (h : r ≤ (n : ℚ)) : roundHalfEven r ≤ n := by
  rcases eq_or_lt_of_le h with h1 | h1
  · subst h1
    simp [roundHalfEven]
  · have h2 : ⌊r⌋ < n := Int.floor_lt.2 h1
    have := roundHalfEven_le_floor_succ r
    omega

theorem roundHalfEven_mono (a b : ℚ) (h : a ≤ b) : roundHalfEven a ≤ roundHalfEven b := by
  have hf : ⌊a⌋ ≤ ⌊b⌋ := Int.floor_le_floor h
  rcases eq_or_lt_of_le hf with h1 | h1
  · unfold roundHalfEven
    rw [← h1]
    have hd : a - ⌊a⌋ ≤ b - ⌊a⌋ := by linarith
    split_ifs <;> first | omega | linarith
  · have h2 := roundHalfEven_le_floor_succ a
    have h3 := floor_le_roundHalfEven b
    omega

theorem sub_half_le_roundHalfEven (r : ℚ) : r - 1 / 2 ≤ (roundHalfEven r : ℚ) := by
  have h1 : r < ⌊r⌋ + 1 := Int.lt_floor_add_one r
  unfold roundHalfEven
  split_ifs with c1 c2 c3
  · linarith
  · push_cast; linarith
  · push_cast at *; linarith
  · push_cast; linarith

theorem roundHalfEven_eq_zero (r : ℚ) (h0 : 0 ≤ r) (h1 : r < 1 / 2) : roundHalfEven r = 0 := by
  have hf : ⌊r⌋ = 0 := by
    rw [Int.floor_eq_iff]
    constructor <;> push_cast <;> linarith
  unfold roundHalfEven
  rw [hf]
  have h2 : r - ((0 : ℤ) : ℚ) < 1 / 2 := by push_cast; linarith
  rw [if_pos h2]

theorem roundHalfEven_nonneg (r : ℚ) (h0 : 0 ≤ r) : 0 ≤ roundHalfEven r :=
  int_le_roundHalfEven r 0 (by simpa using h0)

theorem two_zpow_pos (e : ℤ) : (0 : ℚ) < 2 ^ e :=
  zpow_pos (by norm_num) e

theorem two_zpow_log_le (q : ℚ) (hq : 0 < q) : (2 : ℚ) ^ Int.log 2 q ≤ q := by
  simpa using Int.zpow_log_le_self (b := 2) (by norm_num) hq

theorem lt_two_zpow_log_succ (q : ℚ) : q < (2 : ℚ) ^ (Int.log 2 q + 1) := by
  simpa using Int.lt_zpow_succ_log_self (b := 2) (by norm_num) q

theorem roundMag_zero : roundMag 0 = 0 := by
  simp [roundMag, roundHalfEven]

theorem roundMag_nonneg (q : ℚ) (hq : 0 ≤ q) : 0 ≤ roundMag q := by
  unfold roundMag
  have h1 : 0 ≤ q / 2 ^ ulpExponent q := div_nonneg hq (le_of_lt (two_zpow_pos _))
  have h2 : (0 : ℚ) ≤ (roundHalfEven (q / 2 ^ ulpExponent q) : ℚ) := by
    exact_mod_cast roundHalfEven_nonneg _ h1
  exact mul_nonneg h2 (le_of_lt (two_zpow_pos _))

theorem roundMag_le_binade_top (q : ℚ) :
    roundMag q ≤ 2 ^ (ulpExponent q + 24) := by
  have hp := two_zpow_pos (ulpExponent q)
  have h1 : q < (2 : ℚ) ^ (ulpExponent q + 24) := by
    refine lt_of_lt_of_le (lt_two_zpow_log_succ q) ?_
    apply zpow_le_zpow_right₀ (by norm_num)
    unfold ulpExponent
    have := le_max_left (Int.log 2 q) (-126)
    omega
  have h2 : (2 : ℚ) ^ (ulpExponent q + 24) = 16777216 * 2 ^ ulpExponent q := by
    rw [zpow_add₀ (by norm_num)]
    norm_num
    ring
  have h3 : q / 2 ^ ulpExponent q ≤ ((16777216 : ℤ) : ℚ) := by
    rw [div_le_iff₀ hp]
    push_cast
    linarith
  have h4 : (roundHalfEven (q / 2 ^ ulpExponent q) : ℚ) ≤ 16777216 := by
    exact_mod_cast roundHalfEven_le_int _ _ h3
  unfold roundMag
  rw [h2]
  exact mul_le_mul_of_nonneg_right h4 (le_of_lt hp)

theorem binade_bottom_le_roundMag (q : ℚ) (hq : 0 < q) (hlog : -126 ≤ Int.log 2 q) :
    2 ^ (ulpExponent q + 23) ≤ roundMag q := by
  have hp := two_zpow_pos (ulpExponent q)
  have he : ulpExponent q + 23 = Int.log 2 q := by
    unfold ulpExponent
    rw [max_eq_left hlog]
    omega
  have h1 : (2 : ℚ) ^ (ulpExponent q + 23) ≤ q := by
    rw [he]
    exact two_zpow_log_le q hq
  have h2 : (2 : ℚ) ^ (ulpExponent q + 23) = 8388608 * 2 ^ ulpExponent q := by
    rw [zpow_add₀ (by norm_num)]
    norm_num
    ring
  have h3 : ((8388608 : ℤ) : ℚ) ≤ q / 2 ^ ulpExponent q := by
    rw [le_div_iff₀ hp]
    push_cast
    linarith
  have h4 : (8388608 : ℚ) ≤ (roundHalfEven (q / 2 ^ ulpExponent q) : ℚ) := by
    exact_mod_cast int_le_roundHalfEven _ _ h3
  unfold roundMag
  rw [h2]
  exact mul_le_mul_of_nonneg_right h4 (le_of_lt hp)

theorem ulpExponent_mono (a b : ℚ) (ha : 0 < a) (hab : a ≤ b) :
    ulpExponent a ≤ ulpExponent b := by
  unfold ulpExponent
  have h := Int.log_mono_right (b := 2) ha hab
  have := max_le_max h (le_refl (-126 : ℤ))
  omega

theorem roundMag_mono (a b : ℚ) (ha : 0 < a) (hab : a ≤ b) : roundMag a ≤ roundMag b := by
  have hb : 0 < b := lt_of_lt_of_le ha hab
  rcases eq_or_lt_of_le (ulpExponent_mono a b ha hab) with he | he
  · unfold roundMag
    rw [he]
    have hp := two_zpow_pos (ulpExponent b)
    have h1 : a / 2 ^ ulpExponent b ≤ b / 2 ^ ulpExponent b :=
      div_le_div_of_nonneg_right hab (le_of_lt hp)
    have h2 : (roundHalfEven (a / 2 ^ ulpExponent b) : ℚ) ≤
        (roundHalfEven (b / 2 ^ ulpExponent b) : ℚ) := by
      exact_mod_cast roundHalfEven_mono _ _ h1
    exact mul_le_mul_of_nonneg_right h2 (le_of_lt hp)
  · have hlog : -126 ≤ Int.log 2 b := by
      by_contra hc
      have h1 : ulpExponent b = -126 - 23 := by
        unfold ulpExponent
        rw [max_eq_right (by omega)]
      have h2 : -126 - 23 ≤ ulpExponent a := by
        unfold ulpExponent
        have := le_max_right (Int.log 2 a) (-126)
        omega
      omega
    refine le_trans (roundMag_le_binade_top a) (le_trans ?_ (binade_bottom_le_roundMag b hb hlog))
    exact zpow_le_zpow_right₀ (by norm_num) (by omega)

theorem roundMag_tiny (q : ℚ) (h0 : 0 < q) (h1 : q * 2 < 2 ^ (-149 : ℤ)) : roundMag q = 0 := by
  have hlog : Int.log 2 q < -126 := by
    have h2 : q < ((2 : ℕ) : ℚ) ^ (-126 : ℤ) := by
      have : (2 : ℚ) ^ (-149 : ℤ) ≤ 2 ^ (-126 : ℤ) := zpow_le_zpow_right₀ (by norm_num) (by norm_num)
      push_cast
      linarith
    exact (Int.lt_zpow_iff_log_lt (by norm_num) h0).1 h2
  have he : ulpExponent q = -149 := by
    unfold ulpExponent
    rw [max_eq_right (by omega)]
    norm_num
  unfold roundMag
  rw [he]
  have hp := two_zpow_pos (-149)
  have h3 : roundHalfEven (q / 2 ^ (-149 : ℤ)) = 0 := by
    generalize (2 : ℚ) ^ (-149 : ℤ) = t at h1 hp
    apply roundHalfEven_eq_zero
    · exact div_nonneg (le_of_lt h0) (le_of_lt hp)
    · rw [div_lt_iff₀ hp]
      linarith
  rw [h3]
  simp

theorem roundMag_thirds (q : ℚ) (hq : 0 ≤ q) :
    roundMag (q / 3) ≤ roundMag (roundMag (q * 2) / 3) := by
  rcases eq_or_lt_of_le hq with h0 | h0
  · subst h0
    simp [roundMag_zero]
  have hv0 : 0 ≤ roundMag (q * 2) := roundMag_nonneg _ (by linarith)
  by_cases hv : q ≤ roundMag (q * 2)
  · exact roundMag_mono _ _ (by linarith) (by linarith)
  · have hv1 : roundMag (q * 2) < q := lt_of_not_le hv
    have hp := two_zpow_pos (ulpExponent (q * 2))
    have h1 : q * 2 / 2 ^ ulpExponent (q * 2) - 1 / 2 ≤
        (roundHalfEven (q * 2 / 2 ^ ulpExponent (q * 2)) : ℚ) := sub_half_le_roundHalfEven _
    have h2 : q * 2 - 2 ^ ulpExponent (q * 2) / 2 ≤ roundMag (q * 2) := by
      unfold roundMag
      have := mul_le_mul_of_nonneg_right h1 (le_of_lt hp)
      have e : (q * 2 / 2 ^ ulpExponent (q * 2) - 1 / 2) * 2 ^ ulpExponent (q * 2) =
          q * 2 - 2 ^ ulpExponent (q * 2) / 2 := by
        field_simp
        ring
      linarith
    have hlog : ¬ (-126 ≤ Int.log 2 (q * 2)) := by
      intro hc
      have h3 := binade_bottom_le_roundMag (q * 2) (by linarith) hc
      have h4 : (2 : ℚ) ^ (ulpExponent (q * 2) + 23) = 8388608 * 2 ^ ulpExponent (q * 2) := by
        rw [zpow_add₀ (by norm_num)]
        norm_num
        ring
      linarith
    have he : ulpExponent (q * 2) = -149 := by
      unfold ulpExponent
      rw [max_eq_right (by omega)]
      norm_num
    rw [he] at h2
    have h5 : roundMag (q / 3) = 0 := by
      apply roundMag_tiny _ (by linarith)
      linarith
    rw [h5]
    exact roundMag_nonneg _ (by linarith)

theorem Pt.lt_iff (a b : Pt) : a < b ↔ Pt.blt a b = true := Iff.rfl

theorem Pt.le_iff (a b : Pt) : a ≤ b ↔ Pt.ble a b = true := Iff.rfl

theorem Pt.not_lt_of_lt (a b : Pt) (h : a < b) : ¬ b < a := by
  rw [Pt.lt_iff] at *
  cases a <;> cases b <;> simp [Pt.blt] at h ⊢
  all_goals first
    | exact h
    | linarith
    | simp_all

theorem Pt.lt_of_lt_of_lt (a b c : Pt) (h1 : a < b) (h2 : b < c) : a < c := by
  rw [Pt.lt_iff] at *
  cases a <;> cases b <;> cases c <;> simp [Pt.blt] at h1 h2 ⊢
  all_goals first
    | exact lt_trans h1 h2
    | simp_all

theorem Pt.not_lt_self (a : Pt) : ¬ a < a :=
  fun h => Pt.not_lt_of_lt a a h h

theorem Pt.zero_eq : (0 : Pt) = Pt.fin false 0 := by
  show Pt.fin false ((0 : ℕ) : ℚ) = Pt.fin false 0
  norm_num

theorem Pt.two_eq : (2 : Pt) = Pt.fin false 2 := by
  show Pt.fin false ((2 : ℕ) : ℚ) = Pt.fin false 2
  norm_num

theorem Pt.three_eq : (3 : Pt) = Pt.fin false 3 := by
  show Pt.fin false ((3 : ℕ) : ℚ) = Pt.fin false 3
  norm_num

theorem Pt.fin_mul_two (a : Bool) (p : ℚ) : Pt.fin a p * 2 = Pt.round a (|p| * 2) := by
  rw [Pt.two_eq]
  show Pt.mul (Pt.fin a p) (Pt.fin false 2) = _
  simp [Pt.mul]

theorem Pt.fin_div_three (a : Bool) (p : ℚ) : Pt.fin a p / 3 = Pt.round a (|p| / 3) := by
  rw [Pt.three_eq]
  show Pt.div (Pt.fin a p) (Pt.fin false 3) = _
  simp [Pt.div]

theorem Pt.inf_mul_two (a : Bool) : Pt.inf a * 2 = Pt.inf a := by
  rw [Pt.two_eq]
  show Pt.mul (Pt.inf a) (Pt.fin false 2) = _
  simp [Pt.mul]

theorem Pt.inf_div_three (a : Bool) : Pt.inf a / 3 = Pt.inf a := by
  rw [Pt.three_eq]
  show Pt.div (Pt.inf a) (Pt.fin false 3) = _
  simp [Pt.div]

theorem Pt.thirds_ordered (w : Pt) (hw : 0 ≤ w) : ¬ (w * 2 / 3 < w / 3) := by
  rw [Pt.le_iff, Pt.zero_eq] at hw
  rw [Pt.lt_iff]
  cases w with
  | nan => simp [Pt.ble] at hw
  | inf a =>
    simp only [Pt.ble, Bool.not_eq_true'] at hw
    subst hw
    rw [Pt.inf_mul_two, Pt.inf_div_three]
    simp [Pt.blt]
  | fin a p =>
    simp only [Pt.ble, decide_eq_true_eq] at hw
    rw [Pt.fin_mul_two, Pt.fin_div_three]
    have hp : 0 ≤ |p| := abs_nonneg p
    have h3 := roundMag_thirds |p| hp
    have hn1 := roundMag_nonneg (|p| / 3) (by positivity)
    have hn2 := roundMag_nonneg (|p| * 2) (by positivity)
    have hn3 := roundMag_nonneg (roundMag (|p| * 2) / 3) (by positivity)
    cases a with
    | true =>
      have hz : |p| = 0 := by
        simp only [Pt.signed, if_true, abs_zero, Bool.false_eq_true, if_false] at hw
        linarith
      have e1 : Pt.round true 0 = Pt.fin true 0 := by
        unfold Pt.round
        rw [roundMag_zero, if_neg (by norm_num)]
      rw [hz]
      norm_num
      rw [e1, Pt.fin_div_three]
      norm_num
      rw [e1]
      simp [Pt.blt]
    | false =>
      unfold Pt.round
      by_cases o1 : 340282366920938463463374607431768211456 ≤ roundMag (|p| * 2)
      · rw [if_pos o1, Pt.inf_div_three]
        split_ifs <;> simp [Pt.blt]
      · rw [if_neg o1, Pt.fin_div_three, abs_of_nonneg hn2]
        unfold Pt.round
        by_cases o2 : 340282366920938463463374607431768211456 ≤ roundMag (roundMag (|p| * 2) / 3)
        · rw [if_pos o2]
          split_ifs <;> simp [Pt.blt]
        · have o3 : ¬ (340282366920938463463374607431768211456 ≤ roundMag (|p| / 3)) := by
            intro hc
            exact o2 (le_trans hc h3)
          rw [if_neg o2, if_neg o3]
          simp only [Pt.blt, Pt.signed, Bool.false_eq_true, if_false, decide_eq_true_eq,
            abs_of_nonneg hn1, abs_of_nonneg hn3, not_lt]
          exact h3

theorem roundHalfEven_eq_of_lt (r : ℚ) (n : ℤ) (h0 : (n : ℚ) ≤ r) (h1 : r - n < 1 / 2) :
    roundHalfEven r = n := by
  have hf : ⌊r⌋ = n := by
    rw [Int.floor_eq_iff]
    constructor <;> linarith
  unfold roundHalfEven
  rw [hf, if_pos h1]

theorem ulpExponent_eq (q : ℚ) (k : ℤ) (h1 : (2 : ℚ) ^ k ≤ q) (h2 : q < 2 ^ (k + 1))
    (hk : -126 ≤ k) : ulpExponent q = k - 23 := by
  have hq : 0 < q := lt_of_lt_of_le (two_zpow_pos k) h1
  have e1 : k ≤ Int.log 2 q :=
    (Int.zpow_le_iff_le_log (by norm_num) hq).1 (by simpa using h1)
  have e2 : Int.log 2 q < k + 1 :=
    (Int.lt_zpow_iff_log_lt (by norm_num) hq).1 (by simpa using h2)
  unfold ulpExponent
  rw [max_eq_left (by omega)]
  omega

theorem roundMag_eval (q : ℚ) (k m : ℤ) (h1 : (2 : ℚ) ^ k ≤ q) (h2 : q < 2 ^ (k + 1))
    (hk : -126 ≤ k) (hm0 : (m : ℚ) ≤ q / 2 ^ (k - 23)) (hm1 : q / 2 ^ (k - 23) - m < 1 / 2) :
    roundMag q = m * 2 ^ (k - 23) := by
  unfold roundMag
  rw [ulpExponent_eq q k h1 h2 hk, roundHalfEven_eq_of_lt _ m hm0 hm1]

theorem Pt.lit_three_thirds : (9 : Pt) / 3 = Pt.fin false 3 := by
  have e : (9 : Pt) = Pt.fin false 9 := by
    show Pt.fin false ((9 : ℕ) : ℚ) = Pt.fin false 9
    norm_num
  rw [e, Pt.fin_div_three]
  have h : roundMag (|(9 : ℚ)| / 3) = 3 := by
    rw [roundMag_eval (|(9 : ℚ)| / 3) 1 12582912 (by norm_num) (by norm_num) (by norm_num)
      (by norm_num) (by norm_num)]
    norm_num
  unfold Pt.round
  rw [h, if_neg (by norm_num)]

theorem Pt.lit_six_two_thirds : (9 : Pt) * 2 / 3 = Pt.fin false 6 := by
  have e : (9 : Pt) = Pt.fin false 9 := by
    show Pt.fin false ((9 : ℕ) : ℚ) = Pt.fin false 9
    norm_num
  have h1 : roundMag (|(9 : ℚ)| * 2) = 18 := by
    rw [roundMag_eval (|(9 : ℚ)| * 2) 4 9437184 (by norm_num) (by norm_num) (by norm_num)
      (by norm_num) (by norm_num)]
    norm_num
  have h2 : roundMag (|(18 : ℚ)| / 3) = 6 := by
    rw [roundMag_eval (|(18 : ℚ)| / 3) 2 12582912 (by norm_num) (by norm_num) (by norm_num)
      (by norm_num) (by norm_num)]
    norm_num
  rw [e, Pt.fin_mul_two]
  unfold Pt.round
  rw [h1, if_neg (by norm_num), Pt.fin_div_three]
  unfold Pt.round
  rw [h2, if_neg (by norm_num)]

theorem Pt.natLit_lt_fin (n : ℕ) (q : ℚ) (h : (n : ℚ) < q) :
    (OfNat.ofNat n : Pt) < Pt.fin false q := by
  show Pt.blt (Pt.fin false (n : ℚ)) (Pt.fin false q) = true
  have h0 : (0 : ℚ) ≤ n := Nat.cast_nonneg n
  simp only [Pt.blt, Pt.signed, Bool.false_eq_true, if_false, decide_eq_true_eq,
    abs_of_nonneg h0, abs_of_nonneg (le_trans h0 (le_of_lt h))]
  exact h

theorem Pt.fin_lt_natLit (n : ℕ) (q : ℚ) (h0 : 0 ≤ q) (h : q < (n : ℚ)) :
    Pt.fin false q < (OfNat.ofNat n : Pt) := by
  show Pt.blt (Pt.fin false q) (Pt.fin false (n : ℚ)) = true
  simp only [Pt.blt, Pt.signed, Bool.false_eq_true, if_false, decide_eq_true_eq,
    abs_of_nonneg h0, abs_of_nonneg (le_trans h0 (le_of_lt h))]
  exact h

theorem Pt.le_of_lt (a b : Pt) (h : a < b) : a ≤ b := by
  rw [Pt.lt_iff] at h
  rw [Pt.le_iff]
  cases a <;> cases b <;> simp [Pt.blt, Pt.ble] at h ⊢
  all_goals first
    | exact h
    | linarith
    | simp_all

theorem Pt.mul_swap (a b : Pt) : a * b = b * a := by
  show Pt.mul a b = Pt.mul b a
  cases a <;> cases b <;> simp [Pt.mul, Bool.xor_comm, mul_comm]

theorem Pt.zero_le_nine : (0 : Pt) ≤ 9 := by
  show Pt.ble (Pt.fin false ((0 : ℕ) : ℚ)) (Pt.fin false ((9 : ℕ) : ℚ)) = true
  simp [Pt.ble, Pt.signed]

theorem Pt.zero_lt_nine : (0 : Pt) < 9 :=
  Pt.natLit_lt_fin 0 ((9 : ℕ) : ℚ) (by norm_num)

/-! ## The touch handler -/

theorem inLeft_not_inUp (x y width height : Pt) (h : inLeft x y width height) :
    ¬ inUp x y width height := by
  unfold inLeft at h
  unfold inUp
  intro h2
  exact Pt.not_lt_of_lt _ _ h.2.1 h2.1

theorem inLeft_not_inRight (x y width height : Pt) (hw : 0 ≤ width)
    (h : inLeft x y width height) : ¬ inRight x y width height := by
  unfold inLeft at h
  unfold inRight
  intro h2
  exact Pt.thirds_ordered width hw (Pt.lt_of_lt_of_lt _ _ _ h2.1 h.1)

theorem inLeft_not_inDown (x y width height : Pt) (h : inLeft x y width height) :
    ¬ inDown x y width height := by
  unfold inLeft at h
  unfold inDown
  intro h2
  exact Pt.not_lt_of_lt _ _ h.2.2 h2.1

theorem inUp_not_inRight (x y width height : Pt) (h : inUp x y width height) :
    ¬ inRight x y width height := by
  unfold inUp at h
  unfold inRight
  intro h2
  exact Pt.not_lt_of_lt _ _ h.1 h2.2.1

theorem inUp_not_inDown (x y width height : Pt) (hh : 0 ≤ height)
    (h : inUp x y width height) : ¬ inDown x y width height := by
  unfold inUp at h
  unfold inDown
  intro h2
  exact Pt.thirds_ordered height hh (Pt.lt_of_lt_of_lt _ _ _ h2.1 h.1)

theorem inRight_not_inDown (x y width height : Pt) (h : inRight x y width height) :
    ¬ inDown x y width height := by
  unfold inRight at h
  unfold inDown
  intro h2
  exact Pt.not_lt_of_lt _ _ h.2.2 h2.1

theorem inLeft_scenario : inLeft 1 4 9 9 := by
  unfold inLeft
  rw [Pt.lit_three_thirds, Pt.lit_six_two_thirds]
  exact ⟨Pt.natLit_lt_fin 1 3 (by norm_num), Pt.fin_lt_natLit 4 3 (by norm_num) (by norm_num),
    Pt.natLit_lt_fin 4 6 (by norm_num)⟩

theorem inUp_scenario : inUp 4 1 9 9 := by
  unfold inUp
  rw [Pt.lit_three_thirds, Pt.lit_six_two_thirds]
  exact ⟨Pt.natLit_lt_fin 1 3 (by norm_num), Pt.fin_lt_natLit 4 3 (by norm_num) (by norm_num),
    Pt.natLit_lt_fin 4 6 (by norm_num)⟩

theorem inRight_scenario : inRight 8 4 9 9 := by
  unfold inRight
  rw [Pt.lit_three_thirds, Pt.lit_six_two_thirds]
  exact ⟨Pt.fin_lt_natLit 8 6 (by norm_num) (by norm_num),
    Pt.fin_lt_natLit 4 3 (by norm_num) (by norm_num), Pt.natLit_lt_fin 4 6 (by norm_num)⟩

theorem Pt.lit_ten_thirds : (10 : Pt) / 3 = Pt.fin false (13981013 / 4194304) := by
  have e : (10 : Pt) = Pt.fin false 10 := by
    show Pt.fin false ((10 : ℕ) : ℚ) = Pt.fin false 10
    norm_num
  rw [e, Pt.fin_div_three]
  have h : roundMag (|(10 : ℚ)| / 3) = 13981013 / 4194304 := by
    rw [roundMag_eval (|(10 : ℚ)| / 3) 1 13981013 (by norm_num) (by norm_num) (by norm_num)
      (by norm_num) (by norm_num)]
    norm_num
  unfold Pt.round
  rw [h, if_neg (by norm_num)]

theorem onTouch_inLeft (x y width height : Pt) (s : State) (h : inLeft x y width height) :
    onTouch x y width height s =
      if s.direction ≠ RIGHT then { s with direction := LEFT } else s := by
  have h2 := inLeft_not_inUp x y width height h
  have h4 := inLeft_not_inDown x y width height h
  unfold onTouch
  by_cases hd : s.direction = RIGHT
  · have hs : { s with direction := RIGHT } = s := by
      cases s
      simp only [State.mk.injEq, true_and] at hd ⊢
      exact hd.symm
    simp [h2, h4, hd, hs]
  · simp [h, hd]

theorem onTouch_inUp (x y width height : Pt) (s : State) (hh : 0 ≤ height)
    (h : inUp x y width height) :
    onTouch x y width height s =
      if s.direction ≠ DOWN then { s with direction := UP } else s := by
  have h1 : ¬ inLeft x y width height := fun hl => inLeft_not_inUp x y width height hl h
  have h3 := inUp_not_inRight x y width height h
  have h4 := inUp_not_inDown x y width height hh h
  unfold onTouch
  by_cases hd : s.direction = DOWN
  · simp [h1, h3, h4, hd]
  · simp [h, h1, hd]

theorem onTouch_inRight (x y width height : Pt) (s : State) (hw : 0 ≤ width)
    (h : inRight x y width height) :
    onTouch x y width height s =
      if s.direction ≠ LEFT then { s with direction := RIGHT } else s := by
  have h1 : ¬ inLeft x y width height := fun hl => inLeft_not_inRight x y width height hw hl h
  have h2 : ¬ inUp x y width height := fun hu => inUp_not_inRight x y width height hu h
  have h4 := inRight_not_inDown x y width height h
  unfold onTouch
  by_cases hd : s.direction = LEFT
  · simp [h1, h2, h4, hd]
  · simp [h, h1, h2, hd]

theorem onTouch_inDown (x y width height : Pt) (s : State) (hh : 0 ≤ height)
    (h : inDown x y width height) :
    onTouch x y width height s =
      if s.direction ≠ UP then { s with direction := DOWN } else s := by
  have h1 : ¬ inLeft x y width height := fun hl => inLeft_not_inDown x y width height hl h
  have h2 : ¬ inUp x y width height := fun hu => inUp_not_inDown x y width height hh hu h
  have h3 : ¬ inRight x y width height := fun hr => inRight_not_inDown x y width height hr h
  unfold onTouch
  by_cases hd : s.direction = UP
  · simp [h1, h2, h3, hd]
  · simp [h, h1, h2, h3, hd]

theorem onTouch_outside (x y width height : Pt) (s : State)
    (h1 : ¬ inLeft x y width height) (h2 : ¬ inUp x y width height)
    (h3 : ¬ inRight x y width height) (h4 : ¬ inDown x y width height) :
    onTouch x y width height s = s := by
  simp [onTouch, h1, h2, h3, h4]

/-- Rounding at a boundary: on a surface 10 wide the float32 quotient `width / 3` is
`13981013 / 4194304`, just below the exact third.  A touch whose `x` is that very value (and
`y = 4` on a height of 9) is left of the exact third, yet `x < width / 3` is false in
float32, no `case` of `onTouch` holds and the state is left as it is. -/
theorem onTouch_on_rounded_third :
    (10 : Pt) / 3 = Pt.fin false (13981013 / 4194304) ∧
    (13981013 / 4194304 : ℚ) < 10 / 3 ∧
    ¬ inLeft (Pt.fin false (13981013 / 4194304)) 4 10 9 ∧
    ∀ s : State, onTouch (Pt.fin false (13981013 / 4194304)) 4 10 9 s = s := by
  have h10 : (0 : Pt) ≤ 10 := by
    show Pt.ble (Pt.fin false ((0 : ℕ) : ℚ)) (Pt.fin false ((10 : ℕ) : ℚ)) = true
    simp [Pt.ble, Pt.signed]
  have hl : ¬ inLeft (Pt.fin false (13981013 / 4194304)) 4 10 9 := by
    unfold inLeft
    rw [Pt.lit_ten_thirds]
    exact fun h => Pt.not_lt_self _ h.1
  have hu : ¬ inUp (Pt.fin false (13981013 / 4194304)) 4 10 9 := by
    unfold inUp
    rw [Pt.lit_three_thirds]
    exact fun h => Pt.not_lt_of_lt _ _ (Pt.fin_lt_natLit 4 3 (by norm_num) (by norm_num)) h.1
  have hr : ¬ inRight (Pt.fin false (13981013 / 4194304)) 4 10 9 := by
    unfold inRight
    rw [← Pt.lit_ten_thirds]
    exact fun h => Pt.thirds_ordered 10 h10 h.1
  have hd : ¬ inDown (Pt.fin false (13981013 / 4194304)) 4 10 9 := by
    unfold inDown
    rw [Pt.lit_six_two_thirds]
    exact fun h => Pt.not_lt_of_lt _ _ (Pt.natLit_lt_fin 4 6 (by norm_num)) h.1
  exact ⟨Pt.lit_ten_thirds, by norm_num, hl,
    fun s => onTouch_outside _ _ _ _ s hl hu hr hd⟩

theorem IsReverse_ne (d h : Int) (hr : IsReverse d h) : d ≠ h := by
  rcases hr with ⟨h1, h2⟩ | ⟨h1, h2⟩ | ⟨h1, h2⟩ | ⟨h1, h2⟩ <;> rw [h1, h2] <;> decide

theorem onTouch_reverse (x y width height : Pt) (s : State) (d : Int) (hw : 0 ≤ width)
    (hh : 0 ≤ height) (hreg : InRegion d x y width height) (hrev : IsReverse d s.direction) :
    onTouch x y width height s = s := by
  rcases hreg with ⟨hd, hin⟩ | ⟨hd, hin⟩ | ⟨hd, hin⟩ | ⟨hd, hin⟩
  · have hs : s.direction = RIGHT := by
      rcases hrev with ⟨h1, h2⟩ | ⟨h1, h2⟩ | ⟨h1, h2⟩ | ⟨h1, h2⟩
      · exact h2
      · rw [hd] at h1; exact absurd h1 (by decide)
      · rw [hd] at h1; exact absurd h1 (by decide)
      · rw [hd] at h1; exact absurd h1 (by decide)
    rw [onTouch_inLeft x y width height s hin]
    simp [hs]
  · have hs : s.direction = DOWN := by
      rcases hrev with ⟨h1, h2⟩ | ⟨h1, h2⟩ | ⟨h1, h2⟩ | ⟨h1, h2⟩
      · rw [hd] at h1; exact absurd h1 (by decide)
      · rw [hd] at h1; exact absurd h1 (by decide)
      · exact h2
      · rw [hd] at h1; exact absurd h1 (by decide)
    rw [onTouch_inUp x y width height s hh hin]
    simp [hs]
  · have hs : s.direction = LEFT := by
      rcases hrev with ⟨h1, h2⟩ | ⟨h1, h2⟩ | ⟨h1, h2⟩ | ⟨h1, h2⟩
      · rw [hd] at h1; exact absurd h1 (by decide)
      · exact h2
      · rw [hd] at h1; exact absurd h1 (by decide)
      · rw [hd] at h1; exact absurd h1 (by decide)
    rw [onTouch_inRight x y width height s hw hin]
    simp [hs]
  · have hs : s.direction = UP := by
      rcases hrev with ⟨h1, h2⟩ | ⟨h1, h2⟩ | ⟨h1, h2⟩ | ⟨h1, h2⟩
      · rw [hd] at h1; exact absurd h1 (by decide)
      · rw [hd] at h1; exact absurd h1 (by decide)
      · rw [hd] at h1; exact absurd h1 (by decide)
      · exact h2
    rw [onTouch_inDown x y width height s hh hin]
    simp [hs]

theorem onTouch_accept (x y width height : Pt) (s : State) (d : Int) (hw : 0 ≤ width)
    (hh : 0 ≤ height) (hreg : InRegion d x y width height) (hrev : ¬ IsReverse d s.direction) :
    onTouch x y width height s = { s with direction := d } := by
  rcases hreg with ⟨hd, hin⟩ | ⟨hd, hin⟩ | ⟨hd, hin⟩ | ⟨hd, hin⟩
  · have hs : s.direction ≠ RIGHT := fun e => hrev (Or.inl ⟨hd, e⟩)
    rw [onTouch_inLeft x y width height s hin, hd]
    simp [hs]
  · have hs : s.direction ≠ DOWN := fun e => hrev (Or.inr (Or.inr (Or.inl ⟨hd, e⟩)))
    rw [onTouch_inUp x y width height s hh hin, hd]
    simp [hs]
  · have hs : s.direction ≠ LEFT := fun e => hrev (Or.inr (Or.inl ⟨hd, e⟩))
    rw [onTouch_inRight x y width height s hw hin, hd]
    simp [hs]
  · have hs : s.direction ≠ UP := fun e => hrev (Or.inr (Or.inr (Or.inr ⟨hd, e⟩)))
    rw [onTouch_inDown x y width height s hh hin, hd]
    simp [hs]

theorem onTouches_reverse (s : State) :
    ∀ ts : List Touch,
      (∀ u ∈ ts, 0 ≤ u.width ∧ 0 ≤ u.height ∧
        ∃ e : Int, InRegion e u.x u.y u.width u.height ∧ IsReverse e s.direction) →
      onTouches ts s = s := by
  intro ts
  induction ts with
  | nil =>
    intro _
    rfl
  | cons u rest ih =>
    intro hall
    obtain ⟨hw, hh, e, hreg, hrev⟩ := hall u (List.mem_cons_self _ _)
    have h1 : onTouch u.x u.y u.width u.height s = s :=
      onTouch_reverse u.x u.y u.width u.height s e hw hh hreg hrev
    have h2 := ih (fun v hv => hall v (List.mem_cons_of_mem _ hv))
    unfold onTouches at h2 ⊢
    rw [List.foldl_cons, h1]
    exact h2

/-! ## C3: the reversal guard of `onTouch` -/

/-- C3: for a touch in the region that maps to the direction `d` (the region test of `onTouch`
for `d`, evaluated in float32 as the code evaluates it, on a surface whose width and height
are not negative) and any current heading, `onTouch` leaves the heading as it was when `d` is
the exact reverse of the heading and sets it to `d` otherwise; the request fails to become
the heading if and only if `d` is the reverse of the heading.  Consequently any sequence of
touches that all request the reverse of the current heading leaves the heading (and the whole
state) unchanged. -/
theorem onTouch_reversal_guard (x y width height : Pt) (s : State) (d : Int)
    (hw : 0 ≤ width) (hh : 0 ≤ height) (hreg : InRegion d x y width height) :
    (IsReverse d s.direction → (onTouch x y width height s).direction = s.direction) ∧
    (¬ IsReverse d s.direction → (onTouch x y width height s).direction = d) ∧
    ((onTouch x y width height s).direction ≠ d ↔ IsReverse d s.direction) ∧
    (∀ ts : List Touch,
      (∀ u ∈ ts, 0 ≤ u.width ∧ 0 ≤ u.height ∧
        ∃ e : Int, InRegion e u.x u.y u.width u.height ∧ IsReverse e s.direction) →
      (onTouches ts s).direction = s.direction ∧ onTouches ts s = s) := by
  have hrej : IsReverse d s.direction → (onTouch x y width height s).direction = s.direction :=
    fun hrev => by rw [onTouch_reverse x y width height s d hw hh hreg hrev]
  have hacc : ¬ IsReverse d s.direction → (onTouch x y width height s).direction = d :=
    fun hrev => by rw [onTouch_accept x y width height s d hw hh hreg hrev]
  refine ⟨hrej, hacc, ⟨?_, ?_⟩, ?_⟩
  · intro hne
    by_contra hrev
    exact hne (hacc hrev)
  · intro hrev
    rw [hrej hrev]
    exact fun e => IsReverse_ne d s.direction hrev e.symm
  · intro ts hall
    have h := onTouches_reverse s ts hall
    exact ⟨by rw [h], h⟩

/-- C3 on the state after the first meal (heading LEFT): a touch at `(8, 4)` of a 9 by 9
surface lies in the RIGHT region, RIGHT is the reverse of LEFT, and the heading stays LEFT. -/
theorem onTouch_reversal_guard_witness :
    InRegion RIGHT 8 4 9 9 ∧ IsReverse RIGHT afterMeal.direction ∧
      (onTouch 8 4 9 9 afterMeal).direction = afterMeal.direction :=
  have hreg : InRegion RIGHT 8 4 9 9 := Or.inr (Or.inr (Or.inl ⟨rfl, inRight_scenario⟩))
  have hrev : IsReverse RIGHT afterMeal.direction := Or.inr (Or.inl ⟨rfl, rfl⟩)
  ⟨hreg, hrev,
    (onTouch_reversal_guard 8 4 9 9 afterMeal RIGHT Pt.zero_le_nine Pt.zero_le_nine hreg).1
      hrev⟩

/-! ## C7: the regions of the touch surface -/

/-- C7: on a surface with positive width and height, the four region tests of `onTouch` are
the edge-centre cells of the 3 by 3 partition (LEFT: `x < width/3`, `height/3 < y <
2*height/3`; UP: `y < height/3`, `width/3 < x < 2*width/3`; RIGHT: `x > 2*width/3`,
`height/3 < y < 2*height/3`; DOWN: `y > 2*height/3`, `width/3 < x < 2*width/3`), every
product, quotient and comparison being the float32 one of the code; a touch in the region of
`d` makes `d` the heading unless `d` is the reverse of the heading, and the heading changes
only to a direction whose region holds the touch; the four regions are pairwise disjoint; a
touch in a corner cell or in the centre cell leaves the state as it is, whatever the
heading. -/
theorem onTouch_regions (x y width height : Pt) (hw : 0 < width) (hh : 0 < height) :
    (inLeft x y width height ↔ x < width / 3 ∧ height / 3 < y ∧ y < 2 * height / 3) ∧
    (inUp x y width height ↔ y < height / 3 ∧ width / 3 < x ∧ x < 2 * width / 3) ∧
    (inRight x y width height ↔ x > 2 * width / 3 ∧ height / 3 < y ∧ y < 2 * height / 3) ∧
    (inDown x y width height ↔ y > 2 * height / 3 ∧ width / 3 < x ∧ x < 2 * width / 3) ∧
    (∀ (s : State) (d : Int), InRegion d x y width height → ¬ IsReverse d s.direction →
      (onTouch x y width height s).direction = d) ∧
    (∀ s : State, (onTouch x y width height s).direction ≠ s.direction →
      InRegion (onTouch x y width height s).direction x y width height) ∧
    (¬ (inLeft x y width height ∧ inUp x y width height) ∧
      ¬ (inLeft x y width height ∧ inRight x y width height) ∧
      ¬ (inLeft x y width height ∧ inDown x y width height) ∧
      ¬ (inUp x y width height ∧ inRight x y width height) ∧
      ¬ (inUp x y width height ∧ inDown x y width height) ∧
      ¬ (inRight x y width height ∧ inDown x y width height)) ∧
    ((x < width / 3 ∨ x > 2 * width / 3) ∧ (y < height / 3 ∨ y > 2 * height / 3) →
      ∀ s : State, onTouch x y width height s = s) ∧
    (width / 3 < x ∧ x < 2 * width / 3 ∧ height / 3 < y ∧ y < 2 * height / 3 →
      ∀ s : State, onTouch x y width height s = s) := by
  have e1 : height * 2 / 3 = 2 * height / 3 := by rw [Pt.mul_swap]
  have e2 : width * 2 / 3 = 2 * width / 3 := by rw [Pt.mul_swap]
  have hw0 : (0 : Pt) ≤ width := Pt.le_of_lt _ _ hw
  have hh0 : (0 : Pt) ≤ height := Pt.le_of_lt _ _ hh
  refine ⟨?_, ?_, ?_, ?_, ?_, ?_, ⟨?_, ?_, ?_, ?_, ?_, ?_⟩, ?_, ?_⟩
  · unfold inLeft
    rw [e1]
  · unfold inUp
    rw [e2]
  · unfold inRight
    rw [e1, e2]
  · unfold inDown
    rw [e1, e2]
  · intro s d hreg hrev
    rw [onTouch_accept x y width height s d hw0 hh0 hreg hrev]
  · intro s hne
    unfold onTouch at hne ⊢
    split_ifs at hne ⊢ with c1 c2 c3 c4
    · exact Or.inl ⟨rfl, c1.1⟩
    · exact Or.inr (Or.inl ⟨rfl, c2.1⟩)
    · exact Or.inr (Or.inr (Or.inl ⟨rfl, c3.1⟩))
    · exact Or.inr (Or.inr (Or.inr ⟨rfl, c4.1⟩))
    · exact absurd rfl hne
  · exact fun h => inLeft_not_inUp x y width height h.1 h.2
  · exact fun h => inLeft_not_inRight x y width height hw0 h.1 h.2
  · exact fun h => inLeft_not_inDown x y width height h.1 h.2
  · exact fun h => inUp_not_inRight x y width height h.1 h.2
  · exact fun h => inUp_not_inDown x y width height hh0 h.1 h.2
  · exact fun h => inRight_not_inDown x y width height h.1 h.2
  · rintro ⟨hx, hy⟩ s
    rw [← e1] at hy
    rw [← e2] at hx
    apply onTouch_outside
    · unfold inLeft
      rintro ⟨_, a, b⟩
      rcases hy with hy | hy
      · exact Pt.not_lt_of_lt _ _ hy a
      · exact Pt.not_lt_of_lt _ _ hy b
    · unfold inUp
      rintro ⟨_, a, b⟩
      rcases hx with hx | hx
      · exact Pt.not_lt_of_lt _ _ hx a
      · exact Pt.not_lt_of_lt _ _ hx b
    · unfold inRight
      rintro ⟨_, a, b⟩
      rcases hy with hy | hy
      · exact Pt.not_lt_of_lt _ _ hy a
      · exact Pt.not_lt_of_lt _ _ hy b
    · unfold inDown
      rintro ⟨_, a, b⟩
      rcases hx with hx | hx
      · exact Pt.not_lt_of_lt _ _ hx a
      · exact Pt.not_lt_of_lt _ _ hx b
  · rintro ⟨a, b, c, d⟩ s
    rw [← e2] at b
    rw [← e1] at d
    apply onTouch_outside
    · unfold inLeft
      rintro ⟨k, _, _⟩
      exact Pt.not_lt_of_lt _ _ a k
    · unfold inUp
      rintro ⟨k, _, _⟩
      exact Pt.not_lt_of_lt _ _ c k
    · unfold inRight
      rintro ⟨k, _, _⟩
      exact Pt.not_lt_of_lt _ _ b k
    · unfold inDown
      rintro ⟨k, _, _⟩
      exact Pt.not_lt_of_lt _ _ d k

/-- C7 on a 9 by 9 surface, whose thirds 3 and 6 are exact in float32: the point `(1, 4)` is in
the LEFT region and not in the UP region, and a touch there turns a snake heading UP to
LEFT. -/
theorem onTouch_regions_witness :
    (0 : Pt) < 9 ∧ inLeft 1 4 9 9 ∧ ¬ (inLeft 1 4 9 9 ∧ inUp 1 4 9 9) ∧
      (onTouch 1 4 9 9 { afterMeal with direction := UP }).direction = LEFT :=
  ⟨Pt.zero_lt_nine, inLeft_scenario,
    (onTouch_regions 1 4 9 9 Pt.zero_lt_nine Pt.zero_lt_nine).2.2.2.2.2.2.1.1,
    (onTouch_regions 1 4 9 9 Pt.zero_lt_nine Pt.zero_lt_nine).2.2.2.2.1
      { afterMeal with direction := UP } LEFT (Or.inl ⟨rfl, inLeft_scenario⟩)
      (by unfold IsReverse; decide)⟩

/-! ## C6: two touches between two ticks turn the head onto the neck -/

/-- C6 fails on the code: `afterMeal` is reachable and its snake is the head `(4, 5)` followed
by the neck `(5, 5)`, heading LEFT.  A touch in the UP region and then a touch in the RIGHT
region of a 9 by 9 surface, both before the next tick, are each accepted by the guard of
`onTouch` and leave the heading RIGHT; the next `snakeMove` then puts the head on `(5, 5)`,
the position the neck held before that tick. -/
theorem head_steps_onto_neck :
    Reachable afterMeal ∧
    afterMeal.head = [some ⟨HEAD, 4, 5⟩, some ⟨BODY, 5, 5⟩] ∧
    InRegion UP 4 1 9 9 ∧ InRegion RIGHT 8 4 9 9 ∧
    onTouches [⟨4, 1, 9, 9⟩, ⟨8, 4, 9, 9⟩] afterMeal = { afterMeal with direction := RIGHT } ∧
    snakeMove (onTouches [⟨4, 1, 9, 9⟩, ⟨8, 4, 9, 9⟩] afterMeal) 0 0 =
      Except.ok ⟨10, 10, [some ⟨HEAD, 5, 5⟩, some ⟨BODY, 4, 5⟩], some ⟨FOOD, 0, 0⟩, RIGHT⟩ := by
  have hup : InRegion UP 4 1 9 9 := Or.inr (Or.inl ⟨rfl, inUp_scenario⟩)
  have hright : InRegion RIGHT 8 4 9 9 := Or.inr (Or.inr (Or.inl ⟨rfl, inRight_scenario⟩))
  have h1 : onTouch 4 1 9 9 afterMeal = { afterMeal with direction := UP } :=
    onTouch_accept 4 1 9 9 afterMeal UP Pt.zero_le_nine Pt.zero_le_nine hup
      (by unfold IsReverse; decide)
  have h2 : onTouch 8 4 9 9 { afterMeal with direction := UP } =
      { afterMeal with direction := RIGHT } :=
    onTouch_accept 8 4 9 9 { afterMeal with direction := UP } RIGHT Pt.zero_le_nine
      Pt.zero_le_nine hright (by unfold IsReverse; decide)
  have h3 : onTouches [⟨4, 1, 9, 9⟩, ⟨8, 4, 9, 9⟩] afterMeal =
      { afterMeal with direction := RIGHT } := by
    simp only [onTouches, List.foldl_cons, List.foldl_nil, h1, h2]
  refine ⟨afterMeal_reachable, rfl, hup, hright, h3, ?_⟩
  rw [h3]
  rfl

/-! ## C9: when a tick and a touch run to completion -/

theorem onTouch_direction (x y width height : Pt) (s : State) (hd : IsDirection s.direction) :
    IsDirection (onTouch x y width height s).direction := by
  unfold onTouch
  split_ifs
  · exact Or.inr (Or.inr (Or.inl rfl))
  · exact Or.inl rfl
  · exact Or.inr (Or.inr (Or.inr rfl))
  · exact Or.inr (Or.inl rfl)
  · exact hd

theorem onTouch_valid (x y width height : Pt) (s : State) (hv : ValidState s) :
    ValidState (onTouch x y width height s) := by
  obtain ⟨h1, h2, h3, h4⟩ := onTouch_fields x y width height s
  have h5 := onTouch_direction x y width height s hv.2.2.1
  unfold ValidState at *
  rw [h1, h2, h3, h4]
  exact ⟨hv.1, hv.2.1, h5, hv.2.2.2⟩

theorem snakeMove_valid (s : State) (r1 r2 : Nat) (hv : ValidState s) (hc : 0 < s.colCount)
    (hr : 0 < s.rowCount) :
    ∃ s' : State, snakeMove s r1 r2 = Except.ok s' ∧ ValidState s' ∧
      s'.colCount = s.colCount ∧ s'.rowCount = s.rowCount := by
  obtain ⟨⟨hd, next, hhead⟩, ⟨f, hfood⟩, hdir, hsnake, hfg⟩ := hv
  have hf := hfg f hfood
  have hhd : InGrid s.colCount s.rowCount hd := hsnake hd (by simp [hhead])
  have hcand := candidate_range s.colCount s.rowCount s.direction hd.X hd.Y
    (le_of_lt hc) (le_of_lt hr)
  by_cases heq : candidate s.colCount s.rowCount s.direction hd.X hd.Y = (f.X, f.Y)
  · refine ⟨_, snakeMove_eat_eq s hd next f r1 r2 hhead hfood heq hc hr, ?_, rfl, rfl⟩
    have f1 := Int.emod_nonneg (r1 : Int) (show s.colCount ≠ 0 by omega)
    have f2 := Int.emod_lt_of_pos (r1 : Int) hc
    have f3 := Int.emod_nonneg (r2 : Int) (show s.rowCount ≠ 0 by omega)
    have f4 := Int.emod_lt_of_pos (r2 : Int) hr
    refine ⟨⟨_, _, rfl⟩, ⟨_, rfl⟩, hdir, ?_, ?_⟩
    · intro n hn
      simp only [List.mem_cons, Option.some.injEq] at hn
      rcases hn with hn | hn | hn
      · subst hn
        exact hf
      · subst hn
        exact hhd
      · exact hsnake n (by simp [hhead, hn])
    · intro g hg
      simp only [Option.some.injEq] at hg
      subst hg
      simp only [InGrid, Node.SetLocation]
      omega
  · refine ⟨_, snakeMove_move_eq s hd next f r1 r2 hhead hfood heq, ?_, rfl, rfl⟩
    refine ⟨⟨_, _, rfl⟩, ⟨f, hfood⟩, hdir, ?_, hfg⟩
    intro n hn
    simp only [List.mem_cons, Option.some.injEq] at hn
    rcases hn with hn | hn
    · subst hn
      exact hcand
    · exact shiftBody_inGrid s.colCount s.rowCount next hd.X hd.Y
        (fun m hm => hsnake m (by simp [hhead, hm])) hhd n hn

/-- C9, as the code has it: in every valid state (a head segment, a food, a heading among the
four directions, every position inside `[0,colCount] × [0,rowCount]`) whose grid dimensions
are both positive, `snakeMove` returns a state for every pair of random draws, and that state
is valid again on the same grid; `onTouch` has no failing operation and returns a valid state
for every touch. -/
theorem step_and_touch_total (s : State) (hv : ValidState s) (hc : 0 < s.colCount)
    (hr : 0 < s.rowCount) :
    (∀ r1 r2 : Nat, ∃ s' : State, snakeMove s r1 r2 = Except.ok s' ∧ ValidState s' ∧
      s'.colCount = s.colCount ∧ s'.rowCount = s.rowCount) ∧
    (∀ x y width height : Pt, ValidState (onTouch x y width height s) ∧
      (onTouch x y width height s).colCount = s.colCount ∧
      (onTouch x y width height s).rowCount = s.rowCount) :=
  ⟨fun r1 r2 => snakeMove_valid s r1 r2 hv hc hr,
    fun x y width height =>
      ⟨onTouch_valid x y width height s hv, (onTouch_fields x y width height s).2.2.1,
        (onTouch_fields x y width height s).2.2.2⟩⟩

theorem scenarioStart_valid : ValidState scenarioStart := by
  refine ⟨⟨_, _, rfl⟩, ⟨_, rfl⟩, Or.inr (Or.inr (Or.inl rfl)), ?_, ?_⟩
  · intro n hn
    simp only [scenarioStart, List.mem_singleton, Option.some.injEq] at hn
    subst hn
    simp [InGrid, scenarioStart]
  · intro f hf
    simp only [scenarioStart, Option.some.injEq] at hf
    subst hf
    simp [InGrid, scenarioStart]

/-- C9 at the start of the specification's scenario: the state is valid, its grid is 10 by 10,
and the tick returns. -/
theorem step_and_touch_total_witness :
    ValidState scenarioStart ∧ (0 : Int) < scenarioStart.colCount ∧
      ∃ s' : State, snakeMove scenarioStart 3 7 = Except.ok s' ∧ ValidState s' ∧
        s'.colCount = scenarioStart.colCount ∧ s'.rowCount = scenarioStart.rowCount :=
  ⟨scenarioStart_valid, by decide,
    (step_and_touch_total scenarioStart scenarioStart_valid (by decide) (by decide)).1 3 7⟩

/-- C9 as stated fails: the state with `colCount = 0`, `rowCount = 10`, the head at `(0, 5)`
heading UP and the food at `(0, 4)` has a head, a food, a heading, dimensions `≥ 0` and every
position inside `[0,0] × [0,10]`; the candidate `(0, 4)` is the food position, `snakeEat`
calls `rand.Intn(0)`, and the tick panics whatever the draws. -/
theorem step_panics_on_zero_width :
    ValidState ⟨10, 0, [some ⟨HEAD, 0, 5⟩], some ⟨FOOD, 0, 4⟩, UP⟩ ∧
    ∀ r1 r2 : Nat,
      snakeMove ⟨10, 0, [some ⟨HEAD, 0, 5⟩], some ⟨FOOD, 0, 4⟩, UP⟩ r1 r2 =
        Except.error Panic.intnArgument := by
  constructor
  · refine ⟨⟨_, _, rfl⟩, ⟨_, rfl⟩, Or.inl rfl, ?_, ?_⟩
    · intro n hn
      simp only [List.mem_singleton, Option.some.injEq] at hn
      subst hn
      simp [InGrid]
    · intro f hf
      simp only [Option.some.injEq] at hf
      subst hf
      simp [InGrid]
  · intro r1 r2
    have hc : candidate 0 10 UP 0 5 = (0, 4) := by decide
    have he : checkCanEat ⟨FOOD, 0, 4⟩ 0 4 = true := by decide
    simp only [snakeMove, hc, he, if_true, snakeEat, Intn_of_nonpos 0 r1 (le_refl 0)]

end Gosnake
